import Mathlib

/-!
# libbuilder: a verification development

A shallow embedding of `libbuilder.go` (package `libbuilder`).

* Go strings and byte slices are Lean `String`s; a nil slice is the empty list.
* A Go `error` is an `Option Error` (`none` is `nil`).
* The functions that talk to the outside world (`YarnBuild`, `yarnBuildOne`,
  `yarnFetchVersions`, `generateLibGo`) are written against an environment `Env` that
  answers every call they make, and they record a trace of those calls.  Calls to other
  functions of the package are calls like any other, so that the number and the order of the
  calls a function makes can be read off its trace; the bodies of the callees are embedded
  separately.
* `CopyFile` and `copyFileContents` are written against a small file system with hard links
  and symbolic links.
* Library functions whose definition is not part of the package (`json.Unmarshal`, the `%q`
  verb, `filepath.Join`) are parameters, collected in `Lib`; `jsonUnmarshal` is a model of
  `json.Unmarshal` for the struct of `yarnFetchVersions`.
* `log.Printf` calls are left out: they return nothing and no branch depends on them.
-/

namespace Libbuilder

/-! ## Errors and options -/

/-- Go `error` values that occur in the package. -/
inductive Error where
  /-- The package variable `ErrNotFound`. -/
  | ErrNotFound
  /-- An error made by `fmt.Errorf` inside the package. -/
  | errorf (msg : String)
  /-- An `os` error for which `os.IsNotExist` holds. -/
  | notExist (path : String)
  /-- Any other error handed back by the standard library or by a callee. -/
  | other (msg : String)
deriving DecidableEq, Repr

/-- The Go function `os.IsNotExist`. -/
def Error.IsNotExist : Error → Bool
  | .notExist _ => true
  | _ => false

/-- The Go struct `YarnBuildOptions` (`Type_` is the field `Type`). -/
structure YarnBuildOptions where
  SrcName : String
  SrcFilePath : String
  OutBaseDir : String
  GoName : String
  Type_ : String
  JSDeps : List String
  CSSDeps : List String
  GoImports : List String
  Version : String
deriving DecidableEq, Repr

/-- The Go struct `Builder`. -/
structure Builder where
  DebugKeepTemp : Bool
deriving DecidableEq, Repr

/-! ## Calls, replies and traces -/

/-- The calls made by the functions of the package, with their arguments. -/
inductive Call where
  | Getwd
  | Chdir (dir : String)
  | MkdirAll (path : String)
  | TempDir (dir pattern : String)
  | WriteFile (filename data : String)
  | RemoveAll (path : String)
  | Open (name : String)
  | Close (name : String)
  | ReadAll (name : String)
  | combinedOutput (cmd : String) (args : List String)
  | combinedOutputDump (cmd : String) (args : List String)
  | CopyFile (src dst : String)
  | generateLibGo (goFilePath inFile ver : String) (opts : YarnBuildOptions)
  | yarnFetchVersions (yarnPackageName : String)
  | yarnBuildOne (ver : String) (opts : YarnBuildOptions)
deriving DecidableEq, Repr

/-- What a call returns: its error, its string or byte result (`Getwd`, `TempDir`, `Open`,
`ReadAll`, `combinedOutput`), and the three results of `yarnFetchVersions`. -/
structure Reply where
  err : Option Error
  str : String
  vers : List String
  latest : String
  beta : String
deriving DecidableEq, Repr

/-- One executed call; `deferred` marks a call run by a `defer` statement at return. -/
structure Event where
  call : Call
  reply : Reply
  deferred : Bool
deriving DecidableEq, Repr

abbrev Trace := List Event

/-- The environment answers the call made at a given position of the trace. -/
abbrev Env := Nat → Call → Reply

/-- The state of a running function: the trace so far and the pending `defer` stack (the
head is the call deferred last, which runs first). -/
structure St where
  trace : Trace
  defers : List Call

/-- Run a call whose error the caller checks: on an error return `onErr e`, otherwise go on
with `k`. -/
def checked {ρ : Type} (env : Env) (c : Call) (s : St) (onErr : Error → ρ)
    (k : Reply → St → ρ × St) : ρ × St :=
  let r := env s.trace.length c
  let s1 : St := { s with trace := s.trace ++ [⟨c, r, false⟩] }
  match r.err with
  | some e => (onErr e, s1)
  | none => k r s1

/-- Run a call whose result the caller drops. -/
def unchecked {ρ : Type} (env : Env) (c : Call) (s : St) (k : St → ρ × St) : ρ × St :=
  k { s with trace := s.trace ++ [⟨c, env s.trace.length c, false⟩] }

/-- The Go statement `defer`: push a call on the stack of deferred calls. -/
def St.defer (s : St) (c : Call) : St :=
  { s with defers := c :: s.defers }

/-- Run the deferred calls, last deferred first; their results are dropped. -/
def runDeferred (env : Env) : List Call → Trace → Trace
  | [], t => t
  | c :: cs, t => runDeferred env cs (t ++ [⟨c, env t.length c, true⟩])

/-- Return from a function: run what was deferred and hand back the result and the trace. -/
def finish {ρ : Type} (env : Env) (o : ρ × St) : ρ × Trace :=
  (o.1, runDeferred env o.2.defers o.2.trace)

/-! ## `YarnBuild` -/

/-- The method `Builder.YarnBuild`. -/
def YarnBuild (env : Env) (opts : YarnBuildOptions) (t0 : Trace) : Option Error × Trace :=
  finish env <|
  let s : St := ⟨t0, []⟩
  if opts.Version = "" then
    (some (.errorf "version must be specified in options"), s)
  else if opts.Version = "latest" then
    -- allVers, latestVer, betaVer, err = b.yarnFetchVersions(opts.SrcName)
    checked env (.yarnFetchVersions opts.SrcName) s some fun r s =>
    let latestVer := r.latest
    -- err = b.yarnBuildOne(latestVer, opts)
    checked env (.yarnBuildOne latestVer opts) s some fun _ s =>
    (none, s)
  else
    -- return b.yarnBuildOne(opts.Version, opts)
    checked env (.yarnBuildOne opts.Version opts) s some fun _ s =>
    (none, s)

/-! ## Library functions -/

/-- The fields `json.Unmarshal` fills in `yarnFetchVersions`: `type`, `data.dist-tags.latest`,
`data.dist-tags.beta` and `data.versions` (`Type_` is the field `Type`). -/
structure Info where
  Type_ : String
  Latest : String
  Beta : String
  Versions : List String
deriving DecidableEq, Repr

deriving instance DecidableEq for Except

/-- Library functions the package uses and does not define: `filepath.Join`, the `%q` verb of
`fmt` on a string, and `json.Unmarshal` into the struct of `yarnFetchVersions`. -/
structure Lib where
  Join : List String → String
  Quote : String → String
  Unmarshal : String → Except Error Info

/-- The Go function `unicode.IsSpace`. -/
def isSpace (c : Char) : Bool :=
  c = '\t' || c = '\n' || c.toNat = 0x0B || c.toNat = 0x0C || c = '\r' || c = ' ' ||
  c.toNat = 0x85 || c.toNat = 0xA0 || c.toNat = 0x1680 ||
  (0x2000 ≤ c.toNat && c.toNat ≤ 0x200A) || c.toNat = 0x2028 || c.toNat = 0x2029 ||
  c.toNat = 0x202F || c.toNat = 0x205F || c.toNat = 0x3000

/-- The Go function `bytes.TrimSpace`: drop leading and trailing white space. -/
def TrimSpace (b : String) : String :=
  String.mk ((b.data.dropWhile isSpace).reverse.dropWhile isSpace).reverse

/-- Drop the trailing slashes of a path (first loop of `path.Base`). -/
def stripTrailingSlashes (p : List Char) : List Char :=
  (p.reverse.dropWhile (· = '/')).reverse

/-- What follows the last slash of a path (second step of `path.Base`). -/
def lastElement (p : List Char) : List Char :=
  (p.reverse.takeWhile (· ≠ '/')).reverse

/-- The Go function `path.Base` (on Unix also `filepath.Base`). -/
def Base (p : String) : String :=
  if p = "" then "."
  else
    let q := lastElement (stripTrailingSlashes p.data)
    if q = [] then "/" else String.mk q

/-- Membership in the character class `[a-zA-Z0-9]`. -/
def isAlnum (c : Char) : Bool :=
  ('a' ≤ c && c ≤ 'z') || ('A' ≤ c && c ≤ 'Z') || ('0' ≤ c && c ≤ '9')

/-- The call `regexp.MustCompile("[^a-zA-Z0-9]").ReplaceAllLiteralString(ver, "_")`: every
character outside the class is a match and is replaced by `_`. -/
def sanitize (ver : String) : String :=
  String.mk (ver.data.map fun c => if isAlnum c then c else '_')

/-! ## `generateLibGo` -/

/-- The `fmt.Sprintf` call of `generateLibGo`: the text of the generated unit. -/
def libGoSource (lib : Lib) (inFileB ver : String) (opts : YarnBuildOptions) : String :=
  "\npackage " ++ opts.GoName ++ "_" ++ sanitize ver ++ "\n" ++
  "\n" ++
  "import \"github.com/bradleypeabody/gocaveman/uiregistry\"\n" ++
  "// TODO: go imports\n" ++
  "\n" ++
  "func init() \x7b\n" ++
  "\n" ++
  "\tds := uiregistry.NewBytesDataSource([]byte(" ++ lib.Quote inFileB ++ "))\n" ++
  "\n" ++
  "\te := uiregistry.Entry \x7b\n" ++
  "\t\tType: " ++ lib.Quote opts.Type_ ++ ",\n" ++
  "\t\tName: " ++ lib.Quote opts.GoName ++ "\n" ++
  "\t\tVersion: " ++ lib.Quote ver ++ ",\n" ++
  "\t\tFileName: " ++ lib.Quote (Base opts.SrcFilePath) ++ ",\n" ++
  "\t\tDeps: " ++ "[]string\x7b\x7d" ++ ",\n" ++
  "\t\tDataSource: ds,\n" ++
  "\t\x7d\n" ++
  "\n" ++
  "\terr := uiregistry.Global.Register(e)\n" ++
  "\tif err != nil \x7b\n" ++
  "\t\tpanic(err)\n" ++
  "\t\x7d\n" ++
  "\n" ++
  "\x7d\n"

/-- The function `generateLibGo`; `inFile` names the reader it is given. -/
def generateLibGo (lib : Lib) (env : Env) (goFilePath inFile ver : String)
    (opts : YarnBuildOptions) (t0 : Trace) : Option Error × Trace :=
  finish env <|
  -- inFileB, err := ioutil.ReadAll(inFile)
  checked env (.ReadAll inFile) ⟨t0, []⟩ some fun r s =>
  let inFileB := r.str
  -- err = ioutil.WriteFile(goFilePath, []byte(s), 0644)
  checked env (.WriteFile goFilePath (libGoSource lib inFileB ver opts)) s some fun _ s =>
  (none, s)

/-! ## `yarnFetchVersions` -/

/-- The results of `yarnFetchVersions`. -/
structure Versions where
  retVers : List String
  latestVer : String
  betaVer : String
  retErr : Option Error
deriving DecidableEq, Repr

/-- The lines the loop of `yarnFetchVersions` gets from `r.ReadBytes('\n')` before `io.EOF`:
each ends with its newline; what follows the last newline comes with `io.EOF` and is
dropped by the `break`.  `acc` is the current line so far, reversed. -/
def readLinesAux : List Char → List Char → List String
  | [], _ => []
  | c :: cs, acc =>
    if c = '\n' then String.mk (acc.reverse ++ ['\n']) :: readLinesAux cs []
    else readLinesAux cs (c :: acc)

/-- The lines read from the output `bts`. -/
def readLines (bts : String) : List String :=
  readLinesAux bts.data []

/-- The body of the loop of `yarnFetchVersions`, over the lines read. -/
def scanLines (lib : Lib) : List String → Versions
  | [] => ⟨[], "", "", some .ErrNotFound⟩
  | lineb :: rest =>
    match lib.Unmarshal lineb with
    | .error e => ⟨[], "", "", some e⟩
    | .ok info =>
      if info.Type_ ≠ "inspect" then scanLines lib rest
      else ⟨info.Versions, info.Latest, info.Beta, none⟩

/-- The method `Builder.yarnFetchVersions`. -/
def yarnFetchVersions (lib : Lib) (env : Env) (b : Builder) (yarnPackageName : String)
    (t0 : Trace) : Versions × Trace :=
  finish env <|
  let fail : Error → Versions := fun e => ⟨[], "", "", some e⟩
  -- tmpDir, err := ioutil.TempDir("", "yarnFetchVersions")
  checked env (.TempDir "" "yarnFetchVersions") ⟨t0, []⟩ fail fun r s =>
  let tmpDir := r.str
  let s := if !b.DebugKeepTemp then s.defer (.RemoveAll tmpDir) else s
  checked env (.WriteFile (lib.Join [tmpDir, "package.json"]) "\x7b\x7d") s fail fun _ s =>
  -- bts, err := combinedOutput("yarn", "info", "--json", yarnPackageName)
  checked env (.combinedOutput "yarn" ["info", "--json", yarnPackageName]) s fail fun r s =>
  let bts := r.str
  (scanLines lib (readLines bts), s)

/-! ## `yarnBuildOne` -/

/-- The method `Builder.yarnBuildOne`. -/
def yarnBuildOne (lib : Lib) (env : Env) (b : Builder) (ver : String)
    (opts : YarnBuildOptions) (t0 : Trace) : Option Error × Trace :=
  finish env <|
  -- origWd, err := os.Getwd()
  checked env .Getwd ⟨t0, []⟩ some fun r s =>
  let origWd := r.str
  let s := s.defer (.Chdir origWd)
  let targetDir := lib.Join [opts.OutBaseDir, ver]
  -- os.MkdirAll(targetDir, 0775)
  unchecked env (.MkdirAll targetDir) s fun s =>
  checked env (.combinedOutput "git" ["init", "--bare", targetDir]) s some fun _ s =>
  checked env (.TempDir "" "yarnBuildOne-yarn-add-") s some fun r s =>
  let yarnTmpDir := r.str
  let s := if !b.DebugKeepTemp then s.defer (.RemoveAll yarnTmpDir) else s
  checked env (.WriteFile (lib.Join [yarnTmpDir, "package.json"]) "\x7b\x7d") s some fun _ s =>
  -- os.Chdir(yarnTmpDir)
  unchecked env (.Chdir yarnTmpDir) s fun s =>
  checked env (.combinedOutput "yarn" ["add", "-E", opts.SrcName ++ "@" ++ ver]) s some
    fun _ s =>
  checked env (.TempDir "" "yarnBuildOne-git-checkout-") s some fun r s =>
  let gitTmpDir := r.str
  let s := if !b.DebugKeepTemp then s.defer (.RemoveAll gitTmpDir) else s
  -- os.Chdir(gitTmpDir)
  unchecked env (.Chdir gitTmpDir) s fun s =>
  checked env (.combinedOutput "git" ["clone", targetDir, gitTmpDir]) s some fun _ s =>
  let fname := Base opts.SrcFilePath
  let fromPath := lib.Join [yarnTmpDir, "node_modules", opts.SrcName, opts.SrcFilePath]
  let toPath := lib.Join [gitTmpDir, fname]
  checked env (.CopyFile fromPath toPath) s some fun _ s =>
  -- toPathF, err := os.Open(toPath)
  checked env (.Open toPath) s some fun _ s =>
  let s := s.defer (.Close toPath)
  let goFilePath := lib.Join [gitTmpDir, "lib.go"]
  checked env (.generateLibGo goFilePath toPath ver opts) s some fun _ s =>
  -- os.Chdir(gitTmpDir)
  unchecked env (.Chdir gitTmpDir) s fun s =>
  checked env (.combinedOutputDump "git" ["add", fname, Base goFilePath]) s some fun _ s =>
  -- statusb, err := combinedOutput("git", "status", "--porcelain")
  checked env (.combinedOutput "git" ["status", "--porcelain"]) s some fun r s =>
  let statusb := r.str
  if (TrimSpace statusb).length > 0 then
    checked env (.combinedOutputDump "git" ["commit", "-m", "latest and greatest"]) s some
      fun _ s =>
    checked env (.combinedOutputDump "git" ["push"]) s some fun _ s =>
    (none, s)
  else
    (none, s)

/-! ## A file system with hard links and symbolic links -/

/-- What an inode holds: the bytes of a regular file, the target of a symbolic link, a
directory, or something else that is not a regular file (a device, a pipe). -/
inductive Node where
  | regular (data : String)
  | symlink (target : String)
  | dir
  | other
deriving DecidableEq, Repr

/-- The function `f` with the value at `a` replaced by `b`. -/
def setAt {α β : Type} [DecidableEq α] (f : α → β) (a : α) (b : β) : α → β :=
  fun x => if x = a then b else f x

/-- A file system: the directory entries (which inode a path is a name of, the link itself
when the path names a symbolic link), the inode table, and the first inode number not in use.
Two paths with the same inode number are hard links to one file.  A path is an absolute
path without `.` and `..` elements; a symbolic link is followed where it is the last element
of a path. -/
structure FS where
  entry : String → Option Nat
  node : Nat → Node
  next : Nat
  fresh : ∀ p i, entry p = some i → i < next

/-- The file system with the root directory only. -/
def FS.root : FS :=
  ⟨fun p => if p = "/" then some 0 else none, fun _ => .dir, 1, fun p i h => by
    by_cases hp : p = "/"
    · simp only [hp, if_true, Option.some.injEq] at h
      rw [← h]
      exact Nat.zero_lt_one
    · simp [hp] at h⟩

/-- Add a new inode with the name `name`. -/
def FS.addNode (fs : FS) (name : String) (n : Node) : FS :=
  { entry := setAt fs.entry name (some fs.next)
    node := setAt fs.node fs.next n
    next := fs.next + 1
    fresh := fun p i h => by
      unfold setAt at h
      split at h
      · cases h; exact Nat.lt_succ_self _
      · exact Nat.lt_succ_of_lt (fs.fresh p i h) }

/-- Add a new regular file `name` with content `data`. -/
def FS.addFile (fs : FS) (name data : String) : FS :=
  fs.addNode name (.regular data)

/-- The directory of a path: what comes before its last slash. -/
def dirOf (name : String) : String :=
  let d := (name.data.reverse.dropWhile (· ≠ '/')).reverse
  if d = [] then "."
  else if stripTrailingSlashes d = [] then "/"
  else String.mk (stripTrailingSlashes d)

/-- The path a symbolic link in the directory `dir` stands for: its target, taken from `dir`
unless it starts with a slash. -/
def joinTarget (dir target : String) : String :=
  if target.data.head? = some '/' then target
  else if dir = "/" then "/" ++ target
  else dir ++ "/" ++ target

/-- The outcome of resolving a path. -/
inductive Lookup where
  /-- The path leads, through symbolic links, to the inode `ino`, which is not a symbolic
  link, under the name `name`. -/
  | found (name : String) (ino : Nat)
  /-- The path leads to the name `name`, which does not exist. -/
  | missing (name : String)
  /-- Too many symbolic links. -/
  | loop
deriving DecidableEq, Repr

/-- Resolve a path as `stat`, `open` and `creat` do, following at most `links` symbolic
links. -/
def FS.follow (fs : FS) : Nat → String → Lookup
  | 0, name =>
    match fs.entry name with
    | none => .missing name
    | some i =>
      match fs.node i with
      | .symlink _ => .loop
      | _ => .found name i
  | links + 1, name =>
    match fs.entry name with
    | none => .missing name
    | some i =>
      match fs.node i with
      | .symlink target => fs.follow links (joinTarget (dirOf name) target)
      | _ => .found name i

/-- Whether a path names a symbolic link. -/
def FS.isSymlink (fs : FS) (name : String) : Bool :=
  match fs.entry name with
  | none => false
  | some i =>
    match fs.node i with
    | .symlink _ => true
    | _ => false

/-- The number of symbolic links the kernel follows in one path (Linux: 40). -/
def maxSymlinks : Nat := 40

/-- Whether a path leads to a directory. -/
def FS.isDir (fs : FS) (name : String) : Bool :=
  match fs.follow maxSymlinks name with
  | .found _ i => fs.node i = .dir
  | _ => false

/-- The bytes of the regular file a path leads to, if it leads to one. -/
def FS.read (fs : FS) (name : String) : Option String :=
  match fs.follow maxSymlinks name with
  | .found _ i =>
    match fs.node i with
    | .regular data => some data
    | _ => none
  | _ => none

/-- What `CopyFile` reads of an `os.FileInfo`: the identity of the file and
`Mode().IsRegular()`. -/
structure FileInfo where
  ino : Nat
  regular : Bool
deriving DecidableEq, Repr

/-- Failures of the operating system that the file system does not decide (permissions,
devices, input and output), by their message: one for each system call of `CopyFile` and
`copyFileContents`.  Such a failure is never a not-exist error: whether a path exists is
decided by the file system.  `copy` makes `io.Copy` fail after the given number of bytes. -/
structure Faults where
  statSrc : Option String
  statDst : Option String
  link : Option String
  openSrc : Option String
  create : Option String
  copy : Option (Nat × String)
  sync : Option String
  close : Option String

/-- The Go function `os.Stat`, which follows symbolic links. -/
def FS.Stat (fs : FS) (fault : Option String) (name : String) : Except Error FileInfo :=
  match fault with
  | some msg => .error (.other msg)
  | none =>
    match fs.follow maxSymlinks name with
    | .missing _ => .error (.notExist name)
    | .loop => .error (.other "stat: too many levels of symbolic links")
    | .found _ i =>
      .ok ⟨i, match fs.node i with
        | .regular _ => true
        | _ => false⟩

/-- The Go function `os.SameFile`. -/
def SameFile (fi1 fi2 : FileInfo) : Bool :=
  fi1.ino = fi2.ino

/-- The Go function `os.Link` (the system call `linkat` without `AT_SYMLINK_FOLLOW`):
`newname` becomes another name of the inode `oldname` is a name of, a symbolic link itself
when `oldname` names one.  It fails when `oldname` does not exist or is a directory, when
`newname` exists, and when the directory of `newname` does not exist. -/
def FS.Link (fs : FS) (fault : Option String) (oldname newname : String) :
    Option Error × FS :=
  match fault with
  | some msg => (some (.other msg), fs)
  | none =>
    match h : fs.entry oldname with
    | none => (some (.notExist oldname), fs)
    | some i =>
      if fs.node i = .dir then (some (.other "link: operation not permitted"), fs)
      else if fs.entry newname ≠ none then (some (.other "link: file exists"), fs)
      else if !fs.isDir (dirOf newname) then (some (.notExist newname), fs)
      else
        (none,
          { fs with
            entry := setAt fs.entry newname (some i)
            fresh := fun p j hj => by
              unfold setAt at hj
              split at hj
              · cases hj; exact fs.fresh oldname i h
              · exact fs.fresh p j hj })

/-- The Go function `os.Open`, which follows symbolic links: the open file is known by its
inode number. -/
def FS.Open (fs : FS) (fault : Option String) (name : String) : Except Error Nat :=
  match fault with
  | some msg => .error (.other msg)
  | none =>
    match fs.follow maxSymlinks name with
    | .missing _ => .error (.notExist name)
    | .loop => .error (.other "open: too many levels of symbolic links")
    | .found _ i => .ok i

/-- The Go function `os.Create`, which follows symbolic links: an existing regular file is
truncated, a missing one is created empty where the path leads to, if the directory of that
name exists. -/
def FS.Create (fs : FS) (fault : Option String) (name : String) : Except Error Nat × FS :=
  match fault with
  | some msg => (.error (.other msg), fs)
  | none =>
    match fs.follow maxSymlinks name with
    | .loop => (.error (.other "open: too many levels of symbolic links"), fs)
    | .found _ i =>
      match fs.node i with
      | .regular _ => (.ok i, { fs with node := setAt fs.node i (.regular "") })
      | .other => (.ok i, fs)
      | _ => (.error (.other "open: is a directory"), fs)
    | .missing target =>
      if fs.isDir (dirOf target) then (.ok fs.next, fs.addFile target "")
      else (.error (.notExist name), fs)

/-- The Go function `io.Copy` from the open file `src` to the open file `dst`, both at
offset zero: the bytes of `src` are read and written over the start of `dst`; with a fault
only the first bytes are written.  What is not a regular file cannot be read, and takes what
is written to it without a change of the file system. -/
def FS.Copy (fs : FS) (fault : Option (Nat × String)) (dst src : Nat) : Option Error × FS :=
  match fs.node src, fs.node dst with
  | .regular data, .regular old =>
    match fault with
    | some (n, msg) =>
      let written := data.data.take n
      (some (.other msg), { fs with
        node := setAt fs.node dst (.regular (String.mk (written ++ old.data.drop written.length))) })
    | none =>
      let written := data.data
      (none, { fs with
        node := setAt fs.node dst (.regular (String.mk (written ++ old.data.drop written.length))) })
  | .regular _, .other =>
    match fault with
    | some (_, msg) => (some (.other msg), fs)
    | none => (none, fs)
  | _, _ => (some (.other "read: is a directory"), fs)

/-- The function `copyFileContents`. -/
def copyFileContents (ft : Faults) (src dst : String) (fs : FS) : Option Error × FS :=
  -- in, err := os.Open(src)
  match fs.Open ft.openSrc src with
  | .error e => (some e, fs)
  | .ok inF =>
    -- out, err := os.Create(dst)
    match fs.Create ft.create dst with
    | (.error e, fs1) => (some e, fs1)
    | (.ok out, fs1) =>
      -- the deferred function: cerr := out.Close(); if err == nil { err = cerr }
      let closing : Option Error → Option Error := fun err =>
        match err with
        | none => ft.close.map .other
        | some e => some e
      -- if _, err = io.Copy(out, in); err != nil { return }
      match fs1.Copy ft.copy out inF with
      | (some e, fs2) => (closing (some e), fs2)
      | (none, fs2) =>
        -- err = out.Sync()
        (closing (ft.sync.map .other), fs2)

/-- The function `CopyFile`; the two `fmt.Errorf` messages are cut before the file name and
mode. -/
def CopyFile (ft : Faults) (src dst : String) (fs : FS) : Option Error × FS :=
  -- if err = os.Link(src, dst); err == nil { return }; err = copyFileContents(src, dst)
  let linkOrCopy : Option Error × FS :=
    match fs.Link ft.link src dst with
    | (none, fs1) => (none, fs1)
    | (some _, fs1) => copyFileContents ft src dst fs1
  match fs.Stat ft.statSrc src with
  | .error e => (some e, fs)
  | .ok sfi =>
    if !sfi.regular then
      (some (.errorf "CopyFile: non-regular source file"), fs)
    else
      match fs.Stat ft.statDst dst with
      | .error e => if !e.IsNotExist then (some e, fs) else linkOrCopy
      | .ok dfi =>
        if !dfi.regular then
          (some (.errorf "CopyFile: non-regular destination file"), fs)
        else if SameFile sfi dfi then (none, fs)
        else linkOrCopy

/-- The status query of `yarnBuildOne`. -/
def statusCall : Call := .combinedOutput "git" ["status", "--porcelain"]

/-- The commit of `yarnBuildOne`. -/
def commitCall : Call := .combinedOutputDump "git" ["commit", "-m", "latest and greatest"]

/-- The push of `yarnBuildOne`. -/
def pushCall : Call := .combinedOutputDump "git" ["push"]

/-- The calls of `yarnBuildOne` whose error is looked at: all but `os.MkdirAll` and
`os.Chdir`, whose results are dropped. -/
def isCheckedStep : Call → Bool
  | .MkdirAll _ => false
  | .Chdir _ => false
  | _ => true

/-- The calls `yarnBuildOne` defers: `os.Chdir`, `os.RemoveAll` and `Close`. -/
def isCleanup : Call → Bool
  | .Chdir _ => true
  | .RemoveAll _ => true
  | .Close _ => true
  | _ => false

/-- No step of the trace is deferred and no checked step of it has failed. -/
def NoFailure (t : Trace) : Prop :=
  ∀ ev ∈ t, ev.deferred = false ∧ (isCheckedStep ev.call = true → ev.reply.err = none)

/-- The error of a failed checked step is the result, and only deferred calls follow it. -/
def Aborts (o : Option Error × Trace) : Prop :=
  ∀ (pre post : Trace) (ev : Event) (e : Error), o.2 = pre ++ ev :: post →
    ev.deferred = false → isCheckedStep ev.call = true → ev.reply.err = some e →
    o.1 = some e ∧ ∀ x ∈ post, x.deferred = true

/-- The status query, the commit and the push. -/
def isTail (c : Call) : Bool :=
  c = statusCall || c = commitCall || c = pushCall

/-- A state in which the status query has not been reached: no call of the trace is the
status query, the commit or the push, and only clean-up calls are deferred. -/
def Quiet (s : St) : Prop :=
  (∀ ev ∈ s.trace, isTail ev.call = false) ∧ ∀ c ∈ s.defers, isCleanup c = true

/-- The ways a run of `yarnBuildOne` ends: before the status query, with a failed status
query, with an empty status, with a failed commit, or with a push.  In each case `t` is what
came before the status query and `ds` are the deferred calls. -/
inductive TailShape : Option Error × Trace → Prop where
  | early (res : Option Error) (t ds : Trace)
      (ht : ∀ ev ∈ t, isTail ev.call = false) (hd : ∀ d ∈ ds, isCleanup d.call = true) :
      TailShape (res, t ++ ds)
  | statusFailed (res : Option Error) (t ds : Trace) (st : Event)
      (ht : ∀ ev ∈ t, isTail ev.call = false) (hd : ∀ d ∈ ds, isCleanup d.call = true)
      (hs : st.call = statusCall) (he : st.reply.err ≠ none) :
      TailShape (res, t ++ st :: ds)
  | unchanged (t ds : Trace) (st : Event)
      (ht : ∀ ev ∈ t, isTail ev.call = false) (hd : ∀ d ∈ ds, isCleanup d.call = true)
      (hs : st.call = statusCall) (hb : TrimSpace st.reply.str = "") :
      TailShape (none, t ++ st :: ds)
  | commitFailed (res : Option Error) (t ds : Trace) (st cm : Event)
      (ht : ∀ ev ∈ t, isTail ev.call = false) (hd : ∀ d ∈ ds, isCleanup d.call = true)
      (hs : st.call = statusCall) (hb : TrimSpace st.reply.str ≠ "")
      (hc : cm.call = commitCall) (he : cm.reply.err ≠ none) :
      TailShape (res, t ++ st :: cm :: ds)
  | pushed (res : Option Error) (t ds : Trace) (st cm pu : Event)
      (ht : ∀ ev ∈ t, isTail ev.call = false) (hd : ∀ d ∈ ds, isCleanup d.call = true)
      (hs : st.call = statusCall) (hb : TrimSpace st.reply.str ≠ "")
      (hc : cm.call = commitCall) (he : cm.reply.err = none) (hp : pu.call = pushCall) :
      TailShape (res, t ++ st :: cm :: pu :: ds)

/-! ## `json.Unmarshal`

A model of `json.Unmarshal(lineb, &info)` of the package `encoding/json` for the struct of
`yarnFetchVersions`, after the documentation of that package: the text is checked against the
grammar of JSON (RFC 8259) first, and the value is then decoded into the struct. -/

/-- A JSON value; a number is kept as its text. -/
inductive JSON where
  | null
  | bool (b : Bool)
  | number (text : String)
  | string (s : String)
  | array (items : List JSON)
  | object (members : List (String × JSON))

/-- JSON white space. -/
def isWS (c : Char) : Bool :=
  c = ' ' || c = '\t' || c = '\r' || c = '\n'

/-- Drop leading white space. -/
def skipWS (cs : List Char) : List Char :=
  cs.dropWhile isWS

/-- The value of a hexadecimal digit. -/
def hexDigit (c : Char) : Option Nat :=
  if '0' ≤ c ∧ c ≤ '9' then some (c.toNat - '0'.toNat)
  else if 'a' ≤ c ∧ c ≤ 'f' then some (c.toNat - 'a'.toNat + 10)
  else if 'A' ≤ c ∧ c ≤ 'F' then some (c.toNat - 'A'.toNat + 10)
  else none

/-- The value of four hexadecimal digits. -/
def hex4 (a b c d : Char) : Option Nat :=
  match hexDigit a, hexDigit b, hexDigit c, hexDigit d with
  | some w, some x, some y, some z => some (((w * 16 + x) * 16 + y) * 16 + z)
  | _, _, _, _ => none

/-- A JSON string after its opening quote: the string and what follows its closing quote.
A `\u` escape of a surrogate that is not the first half of a pair gives U+FFFD.  Every call
takes at least one character, so that a fuel of the length of the input is enough. -/
def parseString : Nat → List Char → List Char → Option (String × List Char)
  | 0, _, _ => none
  | _ + 1, [], _ => none
  | _ + 1, '"' :: rest, acc => some (String.mk acc.reverse, rest)
  | fuel + 1, '\\' :: 'u' :: a :: b :: c :: d :: rest, acc =>
    match hex4 a b c d with
    | none => none
    | some n =>
      if 0xD800 ≤ n ∧ n < 0xE000 then
        match rest with
        | '\\' :: 'u' :: e :: f :: g :: h :: rest2 =>
          match hex4 e f g h with
          | none => none
          | some m =>
            if n < 0xDC00 ∧ 0xDC00 ≤ m ∧ m < 0xE000 then
              parseString fuel rest2
                (Char.ofNat (0x10000 + (n - 0xD800) * 0x400 + (m - 0xDC00)) :: acc)
            else parseString fuel rest (Char.ofNat 0xFFFD :: acc)
        | _ => parseString fuel rest (Char.ofNat 0xFFFD :: acc)
      else parseString fuel rest (Char.ofNat n :: acc)
  | fuel + 1, '\\' :: c :: rest, acc =>
    if c = '"' ∨ c = '\\' ∨ c = '/' then parseString fuel rest (c :: acc)
    else if c = 'b' then parseString fuel rest (Char.ofNat 8 :: acc)
    else if c = 'f' then parseString fuel rest (Char.ofNat 12 :: acc)
    else if c = 'n' then parseString fuel rest ('\n' :: acc)
    else if c = 'r' then parseString fuel rest ('\r' :: acc)
    else if c = 't' then parseString fuel rest ('\t' :: acc)
    else none
  | fuel + 1, c :: rest, acc =>
    if c.toNat < 0x20 ∨ c = '\\' then none else parseString fuel rest (c :: acc)

/-- A decimal digit. -/
def isDigit (c : Char) : Bool :=
  '0' ≤ c && c ≤ '9'

/-- What follows the optional minus sign of a number. -/
def numSign : List Char → List Char
  | '-' :: r => r
  | cs => cs

/-- What follows one or more digits. -/
def digits1 : List Char → Option (List Char)
  | d :: r => if isDigit d then some (r.dropWhile isDigit) else none
  | [] => none

/-- What follows the integer part of a number: `0`, or digits that do not start with `0`. -/
def numInt : List Char → Option (List Char)
  | '0' :: r => some r
  | cs => digits1 cs

/-- What follows the optional fraction of a number: a point and one or more digits. -/
def numFrac : List Char → Option (List Char)
  | '.' :: r => digits1 r
  | cs => some cs

/-- What follows the optional sign of an exponent. -/
def expSign : List Char → List Char
  | s :: r => if s = '+' ∨ s = '-' then r else s :: r
  | [] => []

/-- What follows the optional exponent of a number: `e` or `E`, an optional sign and one or
more digits. -/
def numExp : List Char → Option (List Char)
  | e :: r => if e = 'e' ∨ e = 'E' then digits1 (expSign r) else some (e :: r)
  | [] => some []

/-- A JSON number at the start of the input: its text and what follows it. -/
def parseNumber (cs : List Char) : Option (String × List Char) :=
  match numInt (numSign cs) with
  | none => none
  | some r1 =>
    match numFrac r1 with
    | none => none
    | some r2 =>
      match numExp r2 with
      | none => none
      | some r3 => some (String.mk (cs.take (cs.length - r3.length)), r3)

mutual
/-- A JSON value at the start of the input, after white space: the value and what follows
it.  A call for a value nested in an array or an object comes after at least one character
of that array or object, and of two calls in a row for elements or members the second comes
after at least two more characters, so that a fuel of twice the length of the input is
enough. -/
def parseValue : Nat → List Char → Option (JSON × List Char)
  | 0, _ => none
  | fuel + 1, cs =>
    match skipWS cs with
    | [] => none
    | '"' :: rest =>
      match parseString (fuel + 1) rest [] with
      | none => none
      | some (s, r) => some (.string s, r)
    | '[' :: rest =>
      match skipWS rest with
      | ']' :: r => some (.array [], r)
      | _ => parseElements fuel rest []
    | '\x7b' :: rest =>
      match skipWS rest with
      | '\x7d' :: r => some (.object [], r)
      | _ => parseMembers fuel rest []
    | 'n' :: 'u' :: 'l' :: 'l' :: r => some (.null, r)
    | 't' :: 'r' :: 'u' :: 'e' :: r => some (.bool true, r)
    | 'f' :: 'a' :: 'l' :: 's' :: 'e' :: r => some (.bool false, r)
    | c :: rest =>
      match parseNumber (c :: rest) with
      | none => none
      | some (t, r) => some (.number t, r)
/-- The elements of an array after its opening bracket, up to the closing bracket. -/
def parseElements : Nat → List Char → List JSON → Option (JSON × List Char)
  | 0, _, _ => none
  | fuel + 1, cs, acc =>
    match parseValue fuel cs with
    | none => none
    | some (v, r) =>
      match skipWS r with
      | ',' :: r1 => parseElements fuel r1 (v :: acc)
      | ']' :: r1 => some (.array (v :: acc).reverse, r1)
      | _ => none
/-- The members of an object after its opening brace, up to the closing brace. -/
def parseMembers : Nat → List Char → List (String × JSON) → Option (JSON × List Char)
  | 0, _, _ => none
  | fuel + 1, cs, acc =>
    match skipWS cs with
    | '"' :: rest =>
      match parseString (fuel + 1) rest [] with
      | none => none
      | some (k, r) =>
        match skipWS r with
        | ':' :: r1 =>
          match parseValue fuel r1 with
          | none => none
          | some (v, r2) =>
            match skipWS r2 with
            | ',' :: r3 => parseMembers fuel r3 ((k, v) :: acc)
            | '\x7d' :: r3 => some (.object ((k, v) :: acc).reverse, r3)
            | _ => none
        | _ => none
    | _ => none
end

/-- The JSON value a text is: one value with white space around it. -/
def parseJSON (data : String) : Option JSON :=
  match parseValue (2 * data.length + 2) data.data with
  | none => none
  | some (v, rest) => if skipWS rest = [] then some v else none

/-- Case folding of a character of a key, as far as it can meet a character of one of the
field names: a capital letter, the long s and the Kelvin sign. -/
def foldChar (c : Char) : Char :=
  if 'A' ≤ c ∧ c ≤ 'Z' then Char.ofNat (c.toNat + 32)
  else if c.toNat = 0x17F then 's'
  else if c.toNat = 0x212A then 'k'
  else c

/-- Whether a key of an object matches the field name `name` (lower case): exactly or
without regard to case. -/
def foldEq (name key : String) : Bool :=
  key.data.map foldChar = name.data

/-- The values of the members of an object whose key matches `name`, in their order. -/
def JSON.child (name : String) : JSON → List JSON
  | .object members => (members.filter fun m => foldEq name m.1).map (·.2)
  | _ => []

/-- Whether a value is an object. -/
def JSON.isObject : JSON → Bool
  | .object _ => true
  | _ => false

/-- The error of `json.Unmarshal` for a value of the wrong type (`*json.UnmarshalTypeError`);
the text of the message is not modelled. -/
def typeError : Error := .other "json: cannot unmarshal value into Go struct field"

/-- The error of `json.Unmarshal` for a text that is not JSON (`*json.SyntaxError`); the text
of the message is not modelled. -/
def syntaxError : Error := .other "json: syntax error"

/-- The values decoded one after the other into a field that is a struct: the objects among
them; `null` is skipped, any other value is an error. -/
def decodeStructs : List JSON → Except Error (List JSON)
  | [] => .ok []
  | .object ms :: vals =>
    match decodeStructs vals with
    | .ok objs => .ok (.object ms :: objs)
    | .error e => .error e
  | .null :: vals => decodeStructs vals
  | _ :: _ => .error typeError

/-- The values decoded one after the other into a string field that holds `cur`: a string
replaces what the field holds, `null` leaves it, any other value is an error. -/
def decodeString (cur : String) : List JSON → Except Error String
  | [] => .ok cur
  | .string s :: vals => decodeString s vals
  | .null :: vals => decodeString cur vals
  | _ :: _ => .error typeError

/-- The elements of an array decoded into a slice of strings that holds `cur`: a string is
the element, `null` leaves the element the slice has at that index (the empty string beyond
its length), any other value is an error. -/
def decodeElements : List String → List JSON → Except Error (List String)
  | _, [] => .ok []
  | cur, .string s :: items =>
    match decodeElements cur.tail items with
    | .ok l => .ok (s :: l)
    | .error e => .error e
  | cur, .null :: items =>
    match decodeElements cur.tail items with
    | .ok l => .ok (cur.headD "" :: l)
    | .error e => .error e
  | _, _ :: _ => .error typeError

/-- The values decoded one after the other into a field that is a slice of strings and holds
`cur`: an array gives the slice its elements, `null` leaves it, any other value is an
error. -/
def decodeStrings (cur : List String) : List JSON → Except Error (List String)
  | [] => .ok cur
  | .array items :: vals =>
    match decodeElements cur items with
    | .ok l => decodeStrings l vals
    | .error e => .error e
  | .null :: vals => decodeStrings cur vals
  | _ :: _ => .error typeError

/-- The fresh struct `info` after a JSON value has been decoded into it: `null` leaves it
empty, an object fills each field from the members whose key matches it (other members are
skipped), any other value is an error. -/
def decodeInfo (j : JSON) : Except Error Info :=
  match j with
  | .null => .ok ⟨"", "", "", []⟩
  | .object _ =>
    match decodeString "" (j.child "type"), decodeStructs (j.child "data") with
    | .ok type_, .ok datas =>
      match decodeStructs (datas.flatMap (JSON.child "dist-tags")),
          decodeStrings [] (datas.flatMap (JSON.child "versions")) with
      | .ok tags, .ok versions =>
        match decodeString "" (tags.flatMap (JSON.child "latest")),
            decodeString "" (tags.flatMap (JSON.child "beta")) with
        | .ok latest, .ok beta => .ok ⟨type_, latest, beta, versions⟩
        | _, _ => .error typeError
      | _, _ => .error typeError
    | _, _ => .error typeError
  | _ => .error typeError

/-- The call `json.Unmarshal(lineb, &info)` on the fresh struct of `yarnFetchVersions`. -/
def jsonUnmarshal (data : String) : Except Error Info :=
  match parseJSON data with
  | none => .error syntaxError
  | some j => decodeInfo j

/-- What a record holds at `data.versions`: the values of the members `versions` of the
objects at `data`. -/
def recordVersions (j : JSON) : List JSON :=
  ((j.child "data").filter JSON.isObject).flatMap (JSON.child "versions")

/-- What a record holds at `data.dist-tags.<name>`: the values of the members `name` of the
objects at `data.dist-tags`. -/
def recordTag (name : String) (j : JSON) : List JSON :=
  ((((j.child "data").filter JSON.isObject).flatMap (JSON.child "dist-tags")).filter
    JSON.isObject).flatMap (JSON.child name)

/-! ## Concrete libraries and environments -/

/-- `filepath.Join` on elements that are already clean: the empty ones are dropped and the
others are joined by a slash. -/
def sampleJoin (elem : List String) : String :=
  "/".intercalate (elem.filter (· ≠ ""))

/-- The `%q` verb on a string whose characters are printable: the string in double quotes,
with a backslash before a double quote or a backslash and the usual escapes for newline, tab
and carriage return. -/
def sampleQuote (s : String) : String :=
  "\"" ++ String.mk (s.data.map (fun c =>
    if c = '"' then ['\\', '"'] else if c = '\\' then ['\\', '\\']
    else if c = '\n' then ['\\', 'n'] else if c = '\t' then ['\\', 't']
    else if c = '\r' then ['\\', 'r'] else [c])).flatten ++ "\""

/-- A line of `yarn info --json` with an inspect record. -/
def inspectLine : String :=
  "\x7b\"type\":\"inspect\",\"data\":\x7b\"dist-tags\":\x7b\"latest\":\"3.1.0\"\x7d," ++
  "\"versions\":[\"1.0.0\",\"2.0.0\",\"3.1.0\"]\x7d\x7d"

/-- An inspect record without a `latest` tag. -/
def untaggedLine : String :=
  "\x7b\"type\":\"inspect\",\"data\":\x7b\"versions\":[\"1.0.0\"]\x7d\x7d"

/-- A record of another type. -/
def activityLine : String :=
  "\x7b\"type\":\"activityStart\"\x7d"

/-- What `json.Unmarshal` does on the lines above, with or without their newline, and on text
that is not JSON at all; this decoder is used on no other input. -/
def sampleUnmarshal (lineb : String) : Except Error Info :=
  if lineb = inspectLine ∨ lineb = inspectLine ++ "\n" then
    .ok ⟨"inspect", "3.1.0", "", ["1.0.0", "2.0.0", "3.1.0"]⟩
  else if lineb = untaggedLine ∨ lineb = untaggedLine ++ "\n" then
    .ok ⟨"inspect", "", "", ["1.0.0"]⟩
  else if lineb = activityLine ∨ lineb = activityLine ++ "\n" then
    .ok ⟨"activityStart", "", "", []⟩
  else
    .error (.other "invalid character 'o' in literal null (expecting 'u')")

/-- The library used in the concrete examples. -/
def sampleLib : Lib := ⟨sampleJoin, sampleQuote, sampleUnmarshal⟩

/-- The library with the decoder `jsonUnmarshal`. -/
def jsonLib : Lib := ⟨sampleJoin, sampleQuote, jsonUnmarshal⟩

/-- A reply without error and without data. -/
def okReply : Reply := ⟨none, "", [], "", ""⟩

/-- A reply with an error. -/
def errReply (msg : String) : Reply := ⟨some (.other msg), "", [], "", ""⟩

/-- A reply with a string or byte result. -/
def strReply (s : String) : Reply := ⟨none, s, [], "", ""⟩

/-- An environment in which every call succeeds; `git status` prints `status`. -/
def quietEnv (status : String) : Env := fun _ c =>
  match c with
  | .Getwd => strReply "/work"
  | .TempDir _ pattern => strReply ("/tmp/" ++ pattern ++ "1")
  | .combinedOutput "git" ["status", "--porcelain"] => strReply status
  | .combinedOutput "yarn" _ => strReply (inspectLine ++ "\n")
  | .ReadAll _ => strReply "alert(1)"
  | .yarnFetchVersions _ => ⟨none, "", ["1.0.0", "2.0.0", "3.1.0"], "3.1.0", "4.0.0-beta.1"⟩
  | _ => okReply

/-- The environment `env` with the call at position `n` failing. -/
def failingAt (n : Nat) (msg : String) (env : Env) : Env := fun i c =>
  if i = n then errReply msg else env i c

/-- The request of the test `TestYarnBuild`, with `/libs/jquery` as output directory. -/
def jqueryOpts (version : String) : YarnBuildOptions :=
  ⟨"jquery", "dist/jquery.js", "/libs/jquery", "jquery", "js", [], [], [], version⟩

/-- A registry without a `latest` tag: `yarnFetchVersions` succeeds with an empty
`latestVer`, as it does on the output `untaggedLine`. -/
def untaggedEnv : Env := fun i c =>
  match c with
  | .yarnFetchVersions _ => ⟨none, "", ["1.0.0"], "", ""⟩
  | .combinedOutput "yarn" _ => strReply (untaggedLine ++ "\n")
  | _ => quietEnv "" i c

/-- An environment in which every call succeeds and `yarn info` prints `out`. -/
def registryEnv (out : String) : Env := fun i c =>
  match c with
  | .combinedOutput "yarn" _ => strReply out
  | _ => quietEnv "" i c

/-- No fault of the operating system. -/
def noFaults : Faults := ⟨none, none, none, none, none, none, none, none⟩

/-- Hard links cannot be made (the two paths are on different devices). -/
def noLink : Faults :=
  ⟨none, none, some "link: invalid cross-device link", none, none, none, none, none⟩

/-- A file system with the directory of the fetched package and the checkout directory. -/
def emptyFS : FS := (FS.root.addNode "/yarn" .dir).addNode "/co" .dir

/-- A file system with the fetched file only. -/
def fetchedFS : FS := emptyFS.addFile "/yarn/jquery.js" "alert(1)"

/-- A file system with the fetched file and an older copy in the checkout. -/
def staleFS : FS := fetchedFS.addFile "/co/jquery.js" "alert(0); // old and longer"

/-- A file system in which the fetched file is a symbolic link to a file next to it. -/
def symlinkFS : FS :=
  (emptyFS.addFile "/yarn/jquery.min.js" "alert(1)").addNode "/yarn/jquery.js"
    (.symlink "jquery.min.js")

/-- The same, with another file of the name of the link's target in the checkout. -/
def symlinkStaleFS : FS := symlinkFS.addFile "/co/jquery.min.js" "something else"

/-! # Theorems -/

/-! ## Traces -/

/-- Running the deferred calls appends deferred events, one for each deferred call. -/
theorem runDeferred_eq (env : Env) (cs : List Call) (t : Trace) :
    ∃ ds, runDeferred env cs t = t ++ ds ∧ ∀ d ∈ ds, d.deferred = true ∧ d.call ∈ cs := by
  induction cs generalizing t with
  | nil => exact ⟨[], by simp [runDeferred]⟩
  | cons c cs ih =>
    obtain ⟨ds, h1, h2⟩ := ih (t ++ [⟨c, env t.length c, true⟩])
    refine ⟨⟨c, env t.length c, true⟩ :: ds, by simp [runDeferred, h1], ?_⟩
    intro d hd
    rcases List.mem_cons.1 hd with rfl | hd
    · simp
    · exact ⟨(h2 d hd).1, List.mem_cons_of_mem _ (h2 d hd).2⟩

/-- A list has at most one place for an element with a property no other element has. -/
theorem split_unique {α : Type} (Q : α → Prop) (l1 l2 pre post : List α) (a x : α)
    (h : l1 ++ a :: l2 = pre ++ x :: post) (h1 : ∀ y ∈ l1, ¬ Q y) (h2 : ∀ y ∈ l2, ¬ Q y)
    (hx : Q x) : pre = l1 ∧ x = a ∧ post = l2 := by
  induction l1 generalizing pre with
  | nil =>
    cases pre with
    | nil => simp at h; exact ⟨rfl, h.1.symm, h.2.symm⟩
    | cons p pre =>
      simp at h
      exact absurd hx (h2 x (by rw [h.2]; simp))
  | cons b l1 ih =>
    cases pre with
    | nil =>
      simp at h
      exact absurd (h.1 ▸ hx) (h1 b (by simp))
    | cons p pre =>
      simp at h
      obtain ⟨r1, r2, r3⟩ := ih pre h.2 (fun y hy => h1 y (List.mem_cons_of_mem _ hy))
      exact ⟨by rw [h.1, r1], r2, r3⟩

/-! ## `yarnBuildOne`: a failed step ends the run -/

/-- A run that ends without a failed step. -/
theorem aborts_ok (env : Env) (s : St) (h : NoFailure s.trace) :
    Aborts (finish env ((none : Option Error), s)) := by
  intro pre post ev e htr hdef hchk herr
  obtain ⟨ds, hds, hd⟩ := runDeferred_eq env s.defers s.trace
  have hmem : ev ∈ s.trace ++ ds := by
    have : ev ∈ pre ++ ev :: post := by simp
    rw [← htr] at this
    simpa [finish, hds] using this
  rcases List.mem_append.1 hmem with h1 | h1
  · have := (h ev h1).2 hchk
    rw [herr] at this
    cases this
  · have := (hd ev h1).1
    rw [hdef] at this
    cases this

/-- A run that ends at a failed step. -/
theorem aborts_fail (env : Env) (s : St) (c : Call) (r : Reply) (e : Error)
    (h : NoFailure s.trace) (hr : r.err = some e) :
    Aborts (finish env (some e, ({ s with trace := s.trace ++ [⟨c, r, false⟩] } : St))) := by
  intro pre post ev e1 htr hdef hchk herr
  obtain ⟨ds, hds, hd⟩ := runDeferred_eq env s.defers (s.trace ++ [⟨c, r, false⟩])
  have htr1 : s.trace ++ ⟨c, r, false⟩ :: ds = pre ++ ev :: post := by
    rw [← htr]
    simp [finish, hds]
  obtain ⟨-, r2, r3⟩ := split_unique
    (fun x : Event => x.deferred = false ∧ isCheckedStep x.call = true ∧ x.reply.err ≠ none)
    s.trace ds pre post ⟨c, r, false⟩ ev htr1
    (fun y hy hq => hq.2.2 ((h y hy).2 hq.2.1))
    (fun y hy hq => by
      have := (hd y hy).1
      rw [hq.1] at this
      cases this)
    ⟨hdef, hchk, by rw [herr]; simp⟩
  subst r2 r3
  simp only at herr
  rw [hr] at herr
  refine ⟨by simpa [finish] using herr, fun x hx => (hd x hx).1⟩

/-- A checked call keeps the property: it ends the run or goes on without failure. -/
theorem aborts_checked (env : Env) (c : Call) (s : St) (k : Reply → St → Option Error × St)
    (h : NoFailure s.trace)
    (hk : ∀ r s1, NoFailure s1.trace → Aborts (finish env (k r s1))) :
    Aborts (finish env (checked env c s some k)) := by
  unfold checked
  simp only
  split
  · next e he => exact aborts_fail env s c _ e h he
  · next he =>
    apply hk
    intro ev hev
    rcases List.mem_append.1 hev with h1 | h1
    · exact h ev h1
    · simp at h1
      subst h1
      exact ⟨rfl, fun _ => he⟩

/-- A call whose result is dropped keeps the property. -/
theorem aborts_unchecked (env : Env) (c : Call) (s : St) (k : St → Option Error × St)
    (h : NoFailure s.trace) (hc : isCheckedStep c = false)
    (hk : ∀ s1, NoFailure s1.trace → Aborts (finish env (k s1))) :
    Aborts (finish env (unchecked env c s k)) := by
  unfold unchecked
  apply hk
  intro ev hev
  rcases List.mem_append.1 hev with h1 | h1
  · exact h ev h1
  · simp at h1
    subst h1
    exact ⟨rfl, fun h2 => by simp [hc] at h2⟩

theorem noFailure_defer_if (p : Bool) (s : St) (c : Call) (h : NoFailure s.trace) :
    NoFailure (if p then s.defer c else s).trace := by
  cases p <;> simpa [St.defer] using h

/-- Every run of `yarnBuildOne` ends without a failed checked step or at the first one. -/
theorem yarnBuildOne_aborts (lib : Lib) (env : Env) (b : Builder) (ver : String)
    (opts : YarnBuildOptions) : Aborts (yarnBuildOne lib env b ver opts []) := by
  unfold yarnBuildOne
  apply aborts_checked _ _ _ _ (by intro ev hev; simp at hev)
  intro r s hs
  apply aborts_unchecked _ _ _ _ (by simpa [St.defer] using hs) (by rfl)
  intro s hs
  apply aborts_checked _ _ _ _ hs
  intro _ s hs
  apply aborts_checked _ _ _ _ hs
  intro r s hs
  apply aborts_checked _ _ _ _ (noFailure_defer_if _ _ _ hs)
  intro _ s hs
  apply aborts_unchecked _ _ _ _ hs (by rfl)
  intro s hs
  apply aborts_checked _ _ _ _ hs
  intro _ s hs
  apply aborts_checked _ _ _ _ hs
  intro r s hs
  apply aborts_unchecked _ _ _ _ (noFailure_defer_if _ _ _ hs) (by rfl)
  intro s hs
  apply aborts_checked _ _ _ _ hs
  intro _ s hs
  apply aborts_checked _ _ _ _ hs
  intro _ s hs
  apply aborts_checked _ _ _ _ hs
  intro _ s hs
  apply aborts_checked _ _ _ _ (by simpa [St.defer] using hs)
  intro _ s hs
  apply aborts_unchecked _ _ _ _ hs (by rfl)
  intro s hs
  apply aborts_checked _ _ _ _ hs
  intro _ s hs
  apply aborts_checked _ _ _ _ hs
  intro r s hs
  simp only
  split
  · apply aborts_checked _ _ _ _ hs
    intro _ s hs
    apply aborts_checked _ _ _ _ hs
    intro _ s hs
    exact aborts_ok env s hs
  · exact aborts_ok env s hs

theorem getElem?_split {α : Type} (l : List α) (i : Nat) (a : α) (h : l[i]? = some a) :
    l = l.take i ++ a :: l.drop (i + 1) := by
  induction l generalizing i with
  | nil => simp at h
  | cons b l ih =>
    cases i with
    | zero => simp at h; simp [h]
    | succ i => simp at h; simpa using ih i h

/-- C9 (amended): in `yarnBuildOne`, when a step whose error is looked at (every step but
`os.MkdirAll` and `os.Chdir`) fails, its error is the result unchanged and every later call
of the trace is a deferred one: no later step is executed. -/
theorem yarnBuildOne_failed_step_aborts (lib : Lib) (env : Env) (b : Builder) (ver : String)
    (opts : YarnBuildOptions) (i : Nat) (ev : Event) (e : Error)
    (hi : (yarnBuildOne lib env b ver opts []).2[i]? = some ev)
    (hdef : ev.deferred = false) (hchk : isCheckedStep ev.call = true)
    (herr : ev.reply.err = some e) :
    (yarnBuildOne lib env b ver opts []).1 = some e ∧
      ∀ x ∈ (yarnBuildOne lib env b ver opts []).2.drop (i + 1), x.deferred = true :=
  yarnBuildOne_aborts lib env b ver opts _ _ ev e (getElem?_split _ i ev hi) hdef hchk herr

/-- A run in which `git push`, the call at position 17, is rejected. -/
theorem yarnBuildOne_failed_step_aborts_witness :
    (yarnBuildOne sampleLib (failingAt 17 "push rejected" (quietEnv " M lib.go\n")) ⟨false⟩
        "3.1.0" (jqueryOpts "3.1.0") []).2[17]? =
      some ⟨pushCall, errReply "push rejected", false⟩ ∧
    (yarnBuildOne sampleLib (failingAt 17 "push rejected" (quietEnv " M lib.go\n")) ⟨false⟩
        "3.1.0" (jqueryOpts "3.1.0") []).1 = some (.other "push rejected") ∧
    ∀ x ∈ (yarnBuildOne sampleLib (failingAt 17 "push rejected" (quietEnv " M lib.go\n"))
        ⟨false⟩ "3.1.0" (jqueryOpts "3.1.0") []).2.drop (17 + 1), x.deferred = true :=
  ⟨by decide, yarnBuildOne_failed_step_aborts sampleLib
    (failingAt 17 "push rejected" (quietEnv " M lib.go\n")) ⟨false⟩ "3.1.0" (jqueryOpts "3.1.0")
    17 ⟨pushCall, errReply "push rejected", false⟩ (.other "push rejected")
    (by decide) rfl rfl rfl⟩

/-! ## `yarnBuildOne`: commit and push -/

theorem cleanup_of_runDeferred (env : Env) (s : St) (h : ∀ c ∈ s.defers, isCleanup c = true) :
    ∃ ds, runDeferred env s.defers s.trace = s.trace ++ ds ∧
      ∀ d ∈ ds, isCleanup d.call = true := by
  obtain ⟨ds, h1, h2⟩ := runDeferred_eq env s.defers s.trace
  exact ⟨ds, h1, fun d hd => h _ (h2 d hd).2⟩

theorem shape_leaf (env : Env) (res : Option Error) (s : St) (h : Quiet s) :
    TailShape (finish env (res, s)) := by
  obtain ⟨ds, h1, h2⟩ := cleanup_of_runDeferred env s h.2
  simp only [finish, h1]
  exact TailShape.early res s.trace ds h.1 h2

theorem quiet_push (s : St) (ev : Event) (h : Quiet s) (hc : isTail ev.call = false) :
    Quiet { s with trace := s.trace ++ [ev] } := by
  refine ⟨fun x hx => ?_, h.2⟩
  rcases List.mem_append.1 hx with h1 | h1
  · exact h.1 x h1
  · simp at h1
    subst h1
    exact hc

theorem quiet_defer_if (p : Bool) (s : St) (c : Call) (h : Quiet s) (hc : isCleanup c = true) :
    Quiet (if p then s.defer c else s) := by
  cases p
  · simpa using h
  · refine ⟨by simpa [St.defer] using h.1, fun x hx => ?_⟩
    simp [St.defer] at hx
    rcases hx with rfl | hx
    · exact hc
    · exact h.2 x hx

theorem shape_checked (env : Env) (c : Call) (s : St) (k : Reply → St → Option Error × St)
    (h : Quiet s) (hc : isTail c = false)
    (hk : ∀ r s1, Quiet s1 → TailShape (finish env (k r s1))) :
    TailShape (finish env (checked env c s some k)) := by
  unfold checked
  simp only
  split
  · exact shape_leaf env _ _ (quiet_push s _ h hc)
  · exact hk _ _ (quiet_push s _ h hc)

theorem shape_unchecked (env : Env) (c : Call) (s : St) (k : St → Option Error × St)
    (h : Quiet s) (hc : isTail c = false)
    (hk : ∀ s1, Quiet s1 → TailShape (finish env (k s1))) :
    TailShape (finish env (unchecked env c s k)) := by
  unfold unchecked
  exact hk _ (quiet_push s _ h hc)

theorem length_pos_iff_ne_empty (s : String) : s.length > 0 ↔ s ≠ "" := by
  obtain ⟨l⟩ := s
  cases l <;> simp [String.length, String.ext_iff]

theorem shape_finish (env : Env) (res : Option Error) (s : St)
    (h : ∀ c ∈ s.defers, isCleanup c = true)
    (hk : ∀ ds : Trace, (∀ d ∈ ds, isCleanup d.call = true) → TailShape (res, s.trace ++ ds)) :
    TailShape (finish env (res, s)) := by
  obtain ⟨ds, h1, h2⟩ := cleanup_of_runDeferred env s h
  simp only [finish, h1]
  exact hk ds h2

theorem shape_status (env : Env) (s : St) (h : Quiet s) :
    TailShape (finish env (checked env statusCall s some fun r s =>
      if (TrimSpace r.str).length > 0 then
        checked env commitCall s some fun _ s =>
        checked env pushCall s some fun _ s => (none, s)
      else (none, s))) := by
  unfold checked
  simp only
  split
  · next e he =>
    refine shape_finish _ _ _ h.2 fun ds h2 => ?_
    simp only [List.append_assoc, List.singleton_append]
    exact TailShape.statusFailed _ _ _ _ h.1 h2 (by rfl) (by simp [he])
  · next he =>
    split
    · next hb =>
      rw [length_pos_iff_ne_empty] at hb
      split
      · next e hce =>
        refine shape_finish _ _ _ h.2 fun ds h2 => ?_
        simp only [List.append_assoc, List.singleton_append, List.cons_append, List.nil_append]
        exact TailShape.commitFailed _ _ _ _ _ h.1 h2 (by rfl) hb (by rfl)
          (by simp at hce; simp [hce])
      · next hce =>
        split
        all_goals
          refine shape_finish _ _ _ h.2 fun ds h2 => ?_
          simp only [List.append_assoc, List.singleton_append, List.cons_append,
            List.nil_append]
          exact TailShape.pushed _ _ _ _ _ _ h.1 h2 (by rfl) hb (by rfl) hce (by rfl)
    · next hb =>
      rw [length_pos_iff_ne_empty, not_not] at hb
      refine shape_finish _ _ _ h.2 fun ds h2 => ?_
      simp only [List.append_assoc, List.singleton_append]
      exact TailShape.unchanged _ _ _ h.1 h2 (by rfl) hb

/-- Every run of `yarnBuildOne` has one of the five shapes. -/
theorem yarnBuildOne_shape (lib : Lib) (env : Env) (b : Builder) (ver : String)
    (opts : YarnBuildOptions) : TailShape (yarnBuildOne lib env b ver opts []) := by
  unfold yarnBuildOne
  refine shape_checked _ _ _ _ ⟨by simp, by simp⟩ (by rfl) fun r s hs => ?_
  refine shape_unchecked _ _ _ _ (quiet_defer_if true _ _ hs (by rfl)) (by rfl) fun s hs => ?_
  refine shape_checked _ _ _ _ hs (by simp [isTail, statusCall, commitCall, pushCall])
    fun _ s hs => ?_
  refine shape_checked _ _ _ _ hs (by rfl) fun r s hs => ?_
  refine shape_checked _ _ _ _ (quiet_defer_if _ _ _ hs (by rfl)) (by rfl) fun _ s hs => ?_
  refine shape_unchecked _ _ _ _ hs (by rfl) fun s hs => ?_
  refine shape_checked _ _ _ _ hs (by simp [isTail, statusCall, commitCall, pushCall])
    fun _ s hs => ?_
  refine shape_checked _ _ _ _ hs (by rfl) fun r s hs => ?_
  refine shape_unchecked _ _ _ _ (quiet_defer_if _ _ _ hs (by rfl)) (by rfl) fun s hs => ?_
  refine shape_checked _ _ _ _ hs (by simp [isTail, statusCall, commitCall, pushCall])
    fun _ s hs => ?_
  refine shape_checked _ _ _ _ hs (by rfl) fun _ s hs => ?_
  refine shape_checked _ _ _ _ hs (by rfl) fun _ s hs => ?_
  refine shape_checked _ _ _ _ (quiet_defer_if true _ _ hs (by rfl)) (by rfl) fun _ s hs => ?_
  refine shape_unchecked _ _ _ _ hs (by rfl) fun s hs => ?_
  refine shape_checked _ _ _ _ hs (by simp [isTail, statusCall, commitCall, pushCall])
    fun _ s hs => ?_
  exact shape_status env s hs

theorem not_tail_of_isTail (c : Call) (h : isTail c = false) :
    c ≠ statusCall ∧ c ≠ commitCall ∧ c ≠ pushCall := by
  simpa [isTail, and_assoc] using h

theorem not_tail_of_isCleanup (c : Call) (h : isCleanup c = true) :
    c ≠ statusCall ∧ c ≠ commitCall ∧ c ≠ pushCall := by
  cases c <;> simp [isCleanup, statusCall, commitCall, pushCall] at h ⊢

/-- What the five shapes say about commit and push. -/
theorem tailShape_rule (o : Option Error × Trace) (h : TailShape o) (st : Event)
    (hst : st ∈ o.2) (hcall : st.call = statusCall) (hok : st.reply.err = none) :
    ((∃ c ∈ o.2, c.call = commitCall) ↔ TrimSpace st.reply.str ≠ "") ∧
    ((∃ p ∈ o.2, p.call = pushCall) ↔
      (TrimSpace st.reply.str ≠ "" ∧ ∃ c ∈ o.2, c.call = commitCall ∧ c.reply.err = none)) ∧
    (TrimSpace st.reply.str = "" → o.1 = none) ∧
    (∀ (pre post : Trace) (p : Event), o.2 = pre ++ p :: post → p.call = pushCall →
      ∃ c ∈ pre, c.call = commitCall ∧ c.reply.err = none) := by
  have hsc : statusCall ≠ commitCall := by decide
  have hsp : statusCall ≠ pushCall := by decide
  have hcp : commitCall ≠ pushCall := by decide
  cases h with
  | early res t ds ht hd =>
    exfalso
    rcases List.mem_append.1 hst with h1 | h1
    · exact (not_tail_of_isTail _ (ht st h1)).1 hcall
    · exact (not_tail_of_isCleanup _ (hd st h1)).1 hcall
  | statusFailed res t ds s0 ht hd hs he =>
    exfalso
    simp only [List.mem_append, List.mem_cons] at hst
    rcases hst with h1 | rfl | h1
    · exact (not_tail_of_isTail _ (ht st h1)).1 hcall
    · exact he hok
    · exact (not_tail_of_isCleanup _ (hd st h1)).1 hcall
  | unchanged t ds s0 ht hd hs hb =>
    simp only [List.mem_append, List.mem_cons] at hst
    have hst0 : st = s0 := by
      rcases hst with h1 | h1 | h1
      · exact absurd hcall (not_tail_of_isTail _ (ht st h1)).1
      · exact h1
      · exact absurd hcall (not_tail_of_isCleanup _ (hd st h1)).1
    subst hst0
    have hnc : ∀ x ∈ t ++ st :: ds, x.call ≠ commitCall ∧ x.call ≠ pushCall := by
      intro x hx
      simp only [List.mem_append, List.mem_cons] at hx
      rcases hx with h1 | rfl | h1
      · exact (not_tail_of_isTail _ (ht x h1)).2
      · rw [hs]; exact ⟨hsc, hsp⟩
      · exact (not_tail_of_isCleanup _ (hd x h1)).2
    refine ⟨⟨fun ⟨c, hc, hcc⟩ => absurd hcc (hnc c hc).1, fun hn => absurd hb hn⟩,
      ⟨fun ⟨p, hp, hpc⟩ => absurd hpc (hnc p hp).2, fun hn => absurd hb hn.1⟩,
      fun _ => rfl, ?_⟩
    intro pre post p htr hp
    exact absurd hp (hnc p (by simp at htr; simp [htr])).2
  | commitFailed res t ds s0 cm ht hd hs hb hc he =>
    simp only [List.mem_append, List.mem_cons] at hst
    have hst0 : st = s0 := by
      rcases hst with h1 | h1 | h1 | h1
      · exact absurd hcall (not_tail_of_isTail _ (ht st h1)).1
      · exact h1
      · rw [h1, hc] at hcall; exact absurd hcall.symm hsc
      · exact absurd hcall (not_tail_of_isCleanup _ (hd st h1)).1
    subst hst0
    have hnp : ∀ x ∈ t ++ st :: cm :: ds, x.call ≠ pushCall ∧
        (x.call = commitCall → x.reply.err ≠ none) := by
      intro x hx
      simp only [List.mem_append, List.mem_cons] at hx
      rcases hx with h1 | rfl | rfl | h1
      · exact ⟨(not_tail_of_isTail _ (ht x h1)).2.2,
          fun h2 => absurd h2 (not_tail_of_isTail _ (ht x h1)).2.1⟩
      · rw [hs]; exact ⟨hsp, fun h2 => absurd h2 hsc⟩
      · rw [hc]; exact ⟨hcp, fun _ => he⟩
      · exact ⟨(not_tail_of_isCleanup _ (hd x h1)).2.2,
          fun h2 => absurd h2 (not_tail_of_isCleanup _ (hd x h1)).2.1⟩
    refine ⟨⟨fun _ => hb, fun _ => ⟨cm, by simp, hc⟩⟩,
      ⟨fun ⟨p, hp, hpc⟩ => absurd hpc (hnp p hp).1,
        fun ⟨_, c, hc1, hc2, hc3⟩ => absurd hc3 ((hnp c hc1).2 hc2)⟩,
      fun hn => absurd hn hb, ?_⟩
    intro pre post p htr hp
    exact absurd hp (hnp p (by simp at htr; simp [htr])).1
  | pushed res t ds s0 cm pu ht hd hs hb hc he hp =>
    simp only [List.mem_append, List.mem_cons] at hst
    have hst0 : st = s0 := by
      rcases hst with h1 | h1 | h1 | h1 | h1
      · exact absurd hcall (not_tail_of_isTail _ (ht st h1)).1
      · exact h1
      · rw [h1, hc] at hcall; exact absurd hcall.symm hsc
      · rw [h1, hp] at hcall; exact absurd hcall.symm hsp
      · exact absurd hcall (not_tail_of_isCleanup _ (hd st h1)).1
    subst hst0
    refine ⟨⟨fun _ => hb, fun _ => ⟨cm, by simp, hc⟩⟩,
      ⟨fun _ => ⟨hb, cm, by simp, hc, he⟩, fun _ => ⟨pu, by simp, hp⟩⟩,
      fun hn => absurd hn hb, ?_⟩
    intro pre post p htr hpc
    have htr1 : (t ++ [st, cm]) ++ pu :: ds = pre ++ p :: post := by
      rw [← htr]; simp
    obtain ⟨r1, -, -⟩ := split_unique (fun x : Event => x.call = pushCall)
      (t ++ [st, cm]) ds pre post pu p htr1
      (fun y hy => by
        simp only [List.mem_append, List.mem_cons, List.mem_singleton] at hy
        rcases hy with h1 | h1 | h1 | h1
        · exact (not_tail_of_isTail _ (ht y h1)).2.2
        · subst h1; show ¬ y.call = pushCall; rw [hs]; exact hsp
        · subst h1; show ¬ y.call = pushCall; rw [hc]; exact hcp
        · simp at h1)
      (fun y hy => (not_tail_of_isCleanup _ (hd y hy)).2.2) hpc
    exact ⟨cm, by rw [r1]; simp, hc, he⟩

/-- C4: in a run of `yarnBuildOne` in which the status query has succeeded (so that staging
has succeeded before it), `git commit` is run if and only if the status output is not empty
after `bytes.TrimSpace`; `git push` is run if and only if moreover the commit succeeded, and
only after that commit; with an empty status neither is run and the result is success. -/
theorem yarnBuildOne_commit_push_iff_status_nonblank (lib : Lib) (env : Env) (b : Builder)
    (ver : String) (opts : YarnBuildOptions) (st : Event)
    (hst : st ∈ (yarnBuildOne lib env b ver opts []).2)
    (hcall : st.call = statusCall) (hok : st.reply.err = none) :
    ((∃ c ∈ (yarnBuildOne lib env b ver opts []).2, c.call = commitCall) ↔
      TrimSpace st.reply.str ≠ "") ∧
    ((∃ p ∈ (yarnBuildOne lib env b ver opts []).2, p.call = pushCall) ↔
      (TrimSpace st.reply.str ≠ "" ∧
        ∃ c ∈ (yarnBuildOne lib env b ver opts []).2,
          c.call = commitCall ∧ c.reply.err = none)) ∧
    (TrimSpace st.reply.str = "" → (yarnBuildOne lib env b ver opts []).1 = none) ∧
    (∀ (pre post : Trace) (p : Event),
      (yarnBuildOne lib env b ver opts []).2 = pre ++ p :: post → p.call = pushCall →
      ∃ c ∈ pre, c.call = commitCall ∧ c.reply.err = none) :=
  tailShape_rule _ (yarnBuildOne_shape lib env b ver opts) st hst hcall hok

/-- A run with a changed file, which pushes, and a run with a blank status, which does not
commit. -/
theorem yarnBuildOne_commit_push_iff_status_nonblank_witness :
    (⟨statusCall, strReply " M lib.go\n", false⟩ : Event) ∈
      (yarnBuildOne sampleLib (quietEnv " M lib.go\n") ⟨false⟩ "3.1.0"
        (jqueryOpts "3.1.0") []).2 ∧
    (∃ p ∈ (yarnBuildOne sampleLib (quietEnv " M lib.go\n") ⟨false⟩ "3.1.0"
        (jqueryOpts "3.1.0") []).2, p.call = pushCall) ∧
    (⟨statusCall, strReply " \n", false⟩ : Event) ∈
      (yarnBuildOne sampleLib (quietEnv " \n") ⟨false⟩ "3.1.0" (jqueryOpts "3.1.0") []).2 ∧
    ¬ (∃ c ∈ (yarnBuildOne sampleLib (quietEnv " \n") ⟨false⟩ "3.1.0"
        (jqueryOpts "3.1.0") []).2, c.call = commitCall) :=
  ⟨by decide,
   (yarnBuildOne_commit_push_iff_status_nonblank sampleLib (quietEnv " M lib.go\n") ⟨false⟩
      "3.1.0" (jqueryOpts "3.1.0") ⟨statusCall, strReply " M lib.go\n", false⟩
      (by decide) rfl rfl).2.1.2
      ⟨by decide, ⟨commitCall, okReply, false⟩, by decide, rfl, rfl⟩,
   by decide,
   fun h => (yarnBuildOne_commit_push_iff_status_nonblank sampleLib (quietEnv " \n") ⟨false⟩
      "3.1.0" (jqueryOpts "3.1.0") ⟨statusCall, strReply " \n", false⟩
      (by decide) rfl rfl).1.1 h (by decide)⟩

/-- C9 as stated fails for `os.MkdirAll` and `os.Chdir`: when `os.MkdirAll` is the first and
only call to fail, `git init` is run next and the result is success; when the first
`os.Chdir` is the first and only call to fail, `yarn add` is run next and the result is
success. -/
theorem yarnBuildOne_ignores_mkdirAll_and_chdir_failure :
    ((yarnBuildOne sampleLib (failingAt 1 "mkdir: permission denied" (quietEnv "")) ⟨false⟩
        "3.1.0" (jqueryOpts "3.1.0") []).1 = none ∧
      ((yarnBuildOne sampleLib (failingAt 1 "mkdir: permission denied" (quietEnv "")) ⟨false⟩
        "3.1.0" (jqueryOpts "3.1.0") []).2.take 3).map (fun ev => (ev.call, ev.reply.err)) =
        [(.Getwd, none),
         (.MkdirAll "/libs/jquery/3.1.0", some (.other "mkdir: permission denied")),
         (.combinedOutput "git" ["init", "--bare", "/libs/jquery/3.1.0"], none)]) ∧
    ((yarnBuildOne sampleLib (failingAt 5 "chdir: no such directory" (quietEnv "")) ⟨false⟩
        "3.1.0" (jqueryOpts "3.1.0") []).1 = none ∧
      ((yarnBuildOne sampleLib (failingAt 5 "chdir: no such directory" (quietEnv "")) ⟨false⟩
        "3.1.0" (jqueryOpts "3.1.0") []).2.take 7).map (fun ev => (ev.call, ev.reply.err)) =
        [(.Getwd, none),
         (.MkdirAll "/libs/jquery/3.1.0", none),
         (.combinedOutput "git" ["init", "--bare", "/libs/jquery/3.1.0"], none),
         (.TempDir "" "yarnBuildOne-yarn-add-", none),
         (.WriteFile "/tmp/yarnBuildOne-yarn-add-1/package.json" "\x7b\x7d", none),
         (.Chdir "/tmp/yarnBuildOne-yarn-add-1", some (.other "chdir: no such directory")),
         (.combinedOutput "yarn" ["add", "-E", "jquery@3.1.0"], none)]) := by
  decide

/-! ## `YarnBuild` -/

/-- C1: for a request with a version, `YarnBuild` with version `latest` calls
`yarnFetchVersions` once and, if that fails, returns its error without any other call, and
otherwise calls `yarnBuildOne` once, with the latest tag, and returns its result; with any
other version it calls `yarnBuildOne` once, with that version, and nothing else, and returns
its result. -/
theorem YarnBuild_orchestration (env : Env) (opts : YarnBuildOptions)
    (hv : opts.Version ≠ "") :
    (opts.Version = "latest" →
      (∀ e, (env 0 (.yarnFetchVersions opts.SrcName)).err = some e →
        YarnBuild env opts [] =
          (some e,
            [⟨.yarnFetchVersions opts.SrcName, env 0 (.yarnFetchVersions opts.SrcName),
              false⟩])) ∧
      ((env 0 (.yarnFetchVersions opts.SrcName)).err = none →
        YarnBuild env opts [] =
          ((env 1 (.yarnBuildOne (env 0 (.yarnFetchVersions opts.SrcName)).latest opts)).err,
            [⟨.yarnFetchVersions opts.SrcName, env 0 (.yarnFetchVersions opts.SrcName), false⟩,
             ⟨.yarnBuildOne (env 0 (.yarnFetchVersions opts.SrcName)).latest opts,
               env 1 (.yarnBuildOne (env 0 (.yarnFetchVersions opts.SrcName)).latest opts),
               false⟩]))) ∧
    (opts.Version ≠ "latest" →
      YarnBuild env opts [] =
        ((env 0 (.yarnBuildOne opts.Version opts)).err,
          [⟨.yarnBuildOne opts.Version opts, env 0 (.yarnBuildOne opts.Version opts),
            false⟩])) := by
  refine ⟨fun hl => ⟨fun e he => ?_, fun he => ?_⟩, fun hl => ?_⟩
  · simp [YarnBuild, hv, hl, checked, finish, runDeferred, he]
  · simp only [YarnBuild, hv, hl, checked, finish, runDeferred, he, if_false, if_true,
      List.nil_append, List.length_nil, List.length_singleton, List.singleton_append]
    cases h2 : (env 1 (.yarnBuildOne (env 0 (.yarnFetchVersions opts.SrcName)).latest opts)).err
      <;> simp [h2, runDeferred]
  · simp only [YarnBuild, hv, hl, checked, finish, runDeferred, if_false, List.nil_append,
      List.length_nil]
    cases h2 : (env 0 (.yarnBuildOne opts.Version opts)).err <;> simp [h2, runDeferred]

/-- The two requests of `TestYarnBuild`: `latest` and `2.1.0`. -/
theorem YarnBuild_orchestration_witness :
    (jqueryOpts "latest").Version ≠ "" ∧
    ((YarnBuild (quietEnv "") (jqueryOpts "latest") []).1 = none ∧
      (YarnBuild (quietEnv "") (jqueryOpts "latest") []).2.map Event.call =
        [.yarnFetchVersions "jquery", .yarnBuildOne "3.1.0" (jqueryOpts "latest")]) ∧
    (jqueryOpts "2.1.0").Version ≠ "" ∧
    ((YarnBuild (quietEnv "") (jqueryOpts "2.1.0") []).1 = none ∧
      (YarnBuild (quietEnv "") (jqueryOpts "2.1.0") []).2.map Event.call =
        [.yarnBuildOne "2.1.0" (jqueryOpts "2.1.0")]) :=
  ⟨by decide,
   by
    rw [((YarnBuild_orchestration (quietEnv "") (jqueryOpts "latest") (by decide)).1 rfl).2 rfl]
    decide,
   by decide,
   by
    rw [(YarnBuild_orchestration (quietEnv "") (jqueryOpts "2.1.0") (by decide)).2 (by decide)]
    decide⟩

/-- C8 fails on the code: with version `latest` and a registry that reports no `latest` tag,
`yarnFetchVersions` succeeds with an empty `latestVer`, `YarnBuild` calls `yarnBuildOne` with
the empty version, and `yarnBuildOne` then initialises the repository in the output base
directory itself.  An empty requested version is rejected before any call. -/
theorem YarnBuild_publishes_empty_version :
    (yarnFetchVersions sampleLib untaggedEnv ⟨false⟩ "jquery" []).1 =
      ⟨["1.0.0"], "", "", none⟩ ∧
    (YarnBuild untaggedEnv (jqueryOpts "latest") []).2.map Event.call =
      [.yarnFetchVersions "jquery", .yarnBuildOne "" (jqueryOpts "latest")] ∧
    ((yarnBuildOne sampleLib untaggedEnv ⟨false⟩ "" (jqueryOpts "latest") []).2.take 3).map
        Event.call =
      [.Getwd, .MkdirAll "/libs/jquery",
        .combinedOutput "git" ["init", "--bare", "/libs/jquery"]] ∧
    YarnBuild untaggedEnv (jqueryOpts "") [] =
      (some (.errorf "version must be specified in options"), []) := by
  decide

/-! ## `yarnFetchVersions` -/

theorem readLinesAux_line (l rest acc : List Char) (h : '\n' ∉ l) :
    readLinesAux (l ++ '\n' :: rest) acc =
      String.mk (acc.reverse ++ l ++ ['\n']) :: readLinesAux rest [] := by
  induction l generalizing acc with
  | nil => simp [readLinesAux]
  | cons c l ih =>
    have hc : c ≠ '\n' := fun hc => h (by simp [hc])
    have hl : '\n' ∉ l := fun hl => h (by simp [hl])
    simp [readLinesAux, hc, ih _ hl]

theorem readLinesAux_rest (l acc : List Char) (h : '\n' ∉ l) : readLinesAux l acc = [] := by
  induction l generalizing acc with
  | nil => simp [readLinesAux]
  | cons c l ih =>
    have hc : c ≠ '\n' := fun hc => h (by simp [hc])
    have hl : '\n' ∉ l := fun hl => h (by simp [hl])
    simp [readLinesAux, hc, ih _ hl]

/-- The first line read is what comes before the first newline, with that newline. -/
theorem readLines_line (l rest : String) (h : '\n' ∉ l.data) :
    readLines (l ++ "\n" ++ rest) = (l ++ "\n") :: readLines rest := by
  have := readLinesAux_line l.data rest.data [] h
  simpa [readLines, String.ext_iff] using this

/-- Text without a newline at the end of the output is not read as a line. -/
theorem readLines_rest (l : String) (h : '\n' ∉ l.data) : readLines l = [] :=
  readLinesAux_rest l.data [] h

theorem scanLines_skip (lib : Lib) (pre rest : List String)
    (hpre : ∀ l ∈ pre, ∃ i, lib.Unmarshal l = .ok i ∧ i.Type_ ≠ "inspect") :
    scanLines lib (pre ++ rest) = scanLines lib rest := by
  induction pre with
  | nil => rfl
  | cons l pre ih =>
    obtain ⟨i, h1, h2⟩ := hpre l (by simp)
    simp only [List.cons_append, scanLines, h1]
    rw [if_pos h2]
    exact ih (fun x hx => hpre x (List.mem_cons_of_mem _ hx))

/-- When the registry query succeeds, the result is the scan of the lines of its output. -/
theorem yarnFetchVersions_of_query (lib : Lib) (env : Env) (b : Builder) (name : String)
    (ev : Event) (hev : ev ∈ (yarnFetchVersions lib env b name []).2)
    (hcall : ev.call = .combinedOutput "yarn" ["info", "--json", name])
    (hok : ev.reply.err = none) :
    (yarnFetchVersions lib env b name []).1 = scanLines lib (readLines ev.reply.str) := by
  obtain ⟨d⟩ := b
  cases h0 : (env 0 (.TempDir "" "yarnFetchVersions")).err with
  | some e0 =>
    cases d <;> simp [yarnFetchVersions, checked, finish, St.defer, h0, runDeferred] at hev <;>
      subst hev <;> simp at hcall
  | none =>
    cases h1 : (env 1 (.WriteFile (lib.Join
        [(env 0 (.TempDir "" "yarnFetchVersions")).str, "package.json"]) "\x7b\x7d")).err with
    | some e1 =>
      cases d <;>
        simp [yarnFetchVersions, checked, finish, St.defer, h0, h1, runDeferred] at hev <;>
        rcases hev with rfl | rfl | rfl <;> simp at hcall
    | none =>
      cases h2 : (env 2 (.combinedOutput "yarn" ["info", "--json", name])).err with
      | some e2 =>
        cases d <;>
          simp [yarnFetchVersions, checked, finish, St.defer, h0, h1, h2, runDeferred]
            at hev <;>
          rcases hev with rfl | rfl | rfl | rfl <;> simp at hcall <;> simp [h2] at hok
      | none =>
        cases d <;>
          simp [yarnFetchVersions, checked, finish, St.defer, h0, h1, h2, runDeferred]
            at hev ⊢ <;>
          rcases hev with rfl | rfl | rfl | rfl <;> simp at hcall <;> rfl

theorem decodeStructs_ok (vals objs : List JSON) (h : decodeStructs vals = .ok objs) :
    objs = vals.filter JSON.isObject := by
  induction vals generalizing objs with
  | nil =>
    simp only [decodeStructs, Except.ok.injEq] at h
    simp [← h]
  | cons v vals ih =>
    cases v with
    | object ms =>
      simp only [decodeStructs] at h
      cases hr : decodeStructs vals with
      | error e => simp [hr] at h
      | ok l =>
        simp only [hr, Except.ok.injEq] at h
        simp [← h, JSON.isObject, ih l hr]
    | null =>
      simp only [decodeStructs] at h
      simp [JSON.isObject, ih objs h]
    | bool x => simp [decodeStructs] at h
    | number x => simp [decodeStructs] at h
    | string x => simp [decodeStructs] at h
    | array x => simp [decodeStructs] at h

theorem decodeElements_strings (cur vs : List String) :
    decodeElements cur (vs.map .string) = .ok vs := by
  induction vs generalizing cur with
  | nil => rfl
  | cons v vs ih => simp [decodeElements, ih]

/-- The fields of a decoded record are what its members hold, decoded one after the other. -/
theorem decodeInfo_fields (j : JSON) (info : Info) (h : decodeInfo j = .ok info) :
    decodeString "" (j.child "type") = .ok info.Type_ ∧
    decodeString "" (recordTag "latest" j) = .ok info.Latest ∧
    decodeString "" (recordTag "beta" j) = .ok info.Beta ∧
    decodeStrings [] (recordVersions j) = .ok info.Versions := by
  cases j with
  | null =>
    simp only [decodeInfo, Except.ok.injEq] at h
    subst h
    simp [JSON.child, recordTag, recordVersions, decodeString, decodeStrings]
  | bool x => simp [decodeInfo] at h
  | number x => simp [decodeInfo] at h
  | string x => simp [decodeInfo] at h
  | array x => simp [decodeInfo] at h
  | object ms =>
    simp only [decodeInfo] at h
    cases h1 : decodeString "" ((JSON.object ms).child "type") with
    | error e => simp [h1] at h
    | ok type_ =>
      cases h2 : decodeStructs ((JSON.object ms).child "data") with
      | error e => simp [h1, h2] at h
      | ok datas =>
        have hdatas := decodeStructs_ok _ _ h2
        simp only [h1, h2] at h
        cases h3 : decodeStructs (datas.flatMap (JSON.child "dist-tags")) with
        | error e => simp [h3] at h
        | ok tags =>
          have htags := decodeStructs_ok _ _ h3
          cases h4 : decodeStrings [] (datas.flatMap (JSON.child "versions")) with
          | error e => simp [h3, h4] at h
          | ok versions =>
            simp only [h3, h4] at h
            cases h5 : decodeString "" (tags.flatMap (JSON.child "latest")) with
            | error e => simp [h5] at h
            | ok latest =>
              cases h6 : decodeString "" (tags.flatMap (JSON.child "beta")) with
              | error e => simp [h5, h6] at h
              | ok beta =>
                simp only [h5, h6, Except.ok.injEq] at h
                subst h
                subst hdatas
                subst htags
                exact ⟨rfl, h5, h6, h4⟩

/-- C2 (amended): when the registry query succeeds and, among the newline-terminated lines of
its output, a line is preceded only by lines that decode to records of a type other than
`inspect`, then: if that line decodes to a record of type `inspect`, `yarnFetchVersions`
succeeds and returns the versions, the latest tag and the beta tag of that record, which are
the array of strings at `data.versions` and the strings at `data.dist-tags.latest` and
`data.dist-tags.beta`, an absent tag being the empty string; if that line fails to decode,
`yarnFetchVersions` fails with its decoding error. -/
theorem yarnFetchVersions_first_inspect (lib : Lib) (env : Env) (b : Builder) (name : String)
    (ev : Event) (pre post : List String) (lineb : String)
    (hlib : lib.Unmarshal = jsonUnmarshal)
    (hev : ev ∈ (yarnFetchVersions lib env b name []).2)
    (hcall : ev.call = .combinedOutput "yarn" ["info", "--json", name])
    (hok : ev.reply.err = none)
    (hlines : readLines ev.reply.str = pre ++ lineb :: post)
    (hpre : ∀ l ∈ pre, ∃ i, jsonUnmarshal l = .ok i ∧ i.Type_ ≠ "inspect") :
    (∀ info, jsonUnmarshal lineb = .ok info → info.Type_ = "inspect" →
      (yarnFetchVersions lib env b name []).1 =
        ⟨info.Versions, info.Latest, info.Beta, none⟩ ∧
      ∀ j, parseJSON lineb = some j →
        (∀ vs, recordVersions j = [.array (vs.map .string)] → info.Versions = vs) ∧
        (∀ v, recordTag "latest" j = [.string v] → info.Latest = v) ∧
        (recordTag "latest" j = [] → info.Latest = "") ∧
        (∀ v, recordTag "beta" j = [.string v] → info.Beta = v) ∧
        (recordTag "beta" j = [] → info.Beta = "")) ∧
    (∀ e, jsonUnmarshal lineb = .error e →
      (yarnFetchVersions lib env b name []).1 = ⟨[], "", "", some e⟩) := by
  have hscan : (yarnFetchVersions lib env b name []).1 = scanLines lib (lineb :: post) := by
    rw [yarnFetchVersions_of_query lib env b name ev hev hcall hok, hlines,
      scanLines_skip lib pre _ (by rw [hlib]; exact hpre)]
  refine ⟨fun info hline htype => ⟨?_, fun j hj => ?_⟩, fun e hline => ?_⟩
  · rw [hscan]
    simp [scanLines, hlib, hline, htype]
  · have hdec : decodeInfo j = .ok info := by
      simpa [jsonUnmarshal, hj] using hline
    obtain ⟨-, hl, hb, hv⟩ := decodeInfo_fields j info hdec
    refine ⟨fun vs h => ?_, fun v h => ?_, fun h => ?_, fun v h => ?_, fun h => ?_⟩
    · rw [h] at hv
      simp only [decodeStrings, decodeElements_strings, Except.ok.injEq] at hv
      exact hv.symm
    · rw [h] at hl
      simp only [decodeString, Except.ok.injEq] at hl
      exact hl.symm
    · rw [h] at hl
      simp only [decodeString, Except.ok.injEq] at hl
      exact hl.symm
    · rw [h] at hb
      simp only [decodeString, Except.ok.injEq] at hb
      exact hb.symm
    · rw [h] at hb
      simp only [decodeString, Except.ok.injEq] at hb
      exact hb.symm
  · rw [hscan]
    simp [scanLines, hlib, hline]

/-- An output with an activity record and then the inspect record of the example, decoded by
`jsonUnmarshal`: the latest tag is `3.1.0`, the beta tag, which the record does not have, is
empty, and the versions are as in the record. -/
theorem yarnFetchVersions_first_inspect_witness :
    jsonLib.Unmarshal = jsonUnmarshal ∧
    (⟨.combinedOutput "yarn" ["info", "--json", "jquery"],
        strReply (activityLine ++ "\n" ++ inspectLine ++ "\n"), false⟩ : Event) ∈
      (yarnFetchVersions jsonLib (registryEnv (activityLine ++ "\n" ++ inspectLine ++ "\n"))
        ⟨false⟩ "jquery" []).2 ∧
    readLines (activityLine ++ "\n" ++ inspectLine ++ "\n") =
      [activityLine ++ "\n"] ++ (inspectLine ++ "\n") :: [] ∧
    jsonUnmarshal (activityLine ++ "\n") = .ok ⟨"activityStart", "", "", []⟩ ∧
    jsonUnmarshal (inspectLine ++ "\n") =
      .ok ⟨"inspect", "3.1.0", "", ["1.0.0", "2.0.0", "3.1.0"]⟩ ∧
    (yarnFetchVersions jsonLib (registryEnv (activityLine ++ "\n" ++ inspectLine ++ "\n"))
        ⟨false⟩ "jquery" []).1 = ⟨["1.0.0", "2.0.0", "3.1.0"], "3.1.0", "", none⟩ :=
  ⟨rfl, by set_option maxRecDepth 100000 in decide, by decide,
   by set_option maxRecDepth 100000 in decide, by set_option maxRecDepth 100000 in decide,
   ((yarnFetchVersions_first_inspect jsonLib
    (registryEnv (activityLine ++ "\n" ++ inspectLine ++ "\n")) ⟨false⟩ "jquery"
    ⟨.combinedOutput "yarn" ["info", "--json", "jquery"],
      strReply (activityLine ++ "\n" ++ inspectLine ++ "\n"), false⟩
    [activityLine ++ "\n"] [] (inspectLine ++ "\n") rfl
    (by set_option maxRecDepth 100000 in decide) rfl rfl (by decide)
    (fun l hl => ⟨⟨"activityStart", "", "", []⟩, by
      rw [List.mem_singleton.1 hl]
      set_option maxRecDepth 100000 in decide⟩)).1
    ⟨"inspect", "3.1.0", "", ["1.0.0", "2.0.0", "3.1.0"]⟩
    (by set_option maxRecDepth 100000 in decide) rfl).1⟩

/-- C2 as stated fails: an output that is one inspect record without a newline after it
gives `ErrNotFound`, and an inspect record after a line that is not JSON gives the decoding
error of that line. -/
theorem yarnFetchVersions_inspect_record_missed :
    (jsonUnmarshal inspectLine = .ok ⟨"inspect", "3.1.0", "", ["1.0.0", "2.0.0", "3.1.0"]⟩ ∧
      (yarnFetchVersions jsonLib (registryEnv inspectLine) ⟨false⟩ "jquery" []).1 =
        ⟨[], "", "", some .ErrNotFound⟩) ∧
    (jsonUnmarshal (inspectLine ++ "\n") =
        .ok ⟨"inspect", "3.1.0", "", ["1.0.0", "2.0.0", "3.1.0"]⟩ ∧
      jsonUnmarshal "not json\n" = .error syntaxError ∧
      (yarnFetchVersions jsonLib (registryEnv ("not json\n" ++ inspectLine ++ "\n")) ⟨false⟩
        "jquery" []).1 = ⟨[], "", "", some syntaxError⟩) := by
  set_option maxRecDepth 100000 in decide

/-- On the lines of the concrete examples the decoder `sampleUnmarshal` gives what
`jsonUnmarshal` gives; both reject the text that is not JSON. -/
theorem sampleUnmarshal_agrees :
    sampleUnmarshal inspectLine = jsonUnmarshal inspectLine ∧
    sampleUnmarshal (inspectLine ++ "\n") = jsonUnmarshal (inspectLine ++ "\n") ∧
    sampleUnmarshal untaggedLine = jsonUnmarshal untaggedLine ∧
    sampleUnmarshal (untaggedLine ++ "\n") = jsonUnmarshal (untaggedLine ++ "\n") ∧
    sampleUnmarshal activityLine = jsonUnmarshal activityLine ∧
    sampleUnmarshal (activityLine ++ "\n") = jsonUnmarshal (activityLine ++ "\n") ∧
    (∃ e, sampleUnmarshal "not json\n" = .error e) ∧
    (∃ e, jsonUnmarshal "not json\n" = .error e) := by
  refine ⟨?_, ?_, ?_, ?_, ?_, ?_, ⟨_, rfl⟩, ⟨_, rfl⟩⟩ <;>
    set_option maxRecDepth 100000 in decide

/-- C3 (amended): when the registry query succeeds and every newline-terminated line of its
output decodes to a record whose type is not `inspect` (the empty output included),
`yarnFetchVersions` returns `ErrNotFound` with no version list and empty tags. -/
theorem yarnFetchVersions_not_found (lib : Lib) (env : Env) (b : Builder) (name : String)
    (ev : Event)
    (hev : ev ∈ (yarnFetchVersions lib env b name []).2)
    (hcall : ev.call = .combinedOutput "yarn" ["info", "--json", name])
    (hok : ev.reply.err = none)
    (hall : ∀ l ∈ readLines ev.reply.str, ∃ i, lib.Unmarshal l = .ok i ∧ i.Type_ ≠ "inspect") :
    (yarnFetchVersions lib env b name []).1 = ⟨[], "", "", some .ErrNotFound⟩ := by
  rw [yarnFetchVersions_of_query lib env b name ev hev hcall hok]
  have := scanLines_skip lib (readLines ev.reply.str) [] hall
  simpa [scanLines] using this

/-- The empty output, and an output with an activity record only. -/
theorem yarnFetchVersions_not_found_witness :
    ((⟨.combinedOutput "yarn" ["info", "--json", "jquery"], strReply "", false⟩ : Event) ∈
        (yarnFetchVersions sampleLib (registryEnv "") ⟨false⟩ "jquery" []).2 ∧
      (yarnFetchVersions sampleLib (registryEnv "") ⟨false⟩ "jquery" []).1 =
        ⟨[], "", "", some .ErrNotFound⟩) ∧
    ((⟨.combinedOutput "yarn" ["info", "--json", "jquery"],
          strReply (activityLine ++ "\n"), false⟩ : Event) ∈
        (yarnFetchVersions sampleLib (registryEnv (activityLine ++ "\n")) ⟨false⟩
          "jquery" []).2 ∧
      (yarnFetchVersions sampleLib (registryEnv (activityLine ++ "\n")) ⟨false⟩ "jquery" []).1 =
        ⟨[], "", "", some .ErrNotFound⟩) :=
  ⟨⟨by decide,
    yarnFetchVersions_not_found sampleLib (registryEnv "") ⟨false⟩ "jquery"
      ⟨.combinedOutput "yarn" ["info", "--json", "jquery"], strReply "", false⟩
      (by decide) rfl rfl (fun l hl => by
        have h : readLines (strReply "").str = [] := by decide
        rw [h] at hl
        cases hl)⟩,
   ⟨by decide,
    yarnFetchVersions_not_found sampleLib (registryEnv (activityLine ++ "\n")) ⟨false⟩ "jquery"
      ⟨.combinedOutput "yarn" ["info", "--json", "jquery"],
        strReply (activityLine ++ "\n"), false⟩
      (by decide) rfl rfl (fun l hl => ⟨⟨"activityStart", "", "", []⟩, by
        have h : readLines (strReply (activityLine ++ "\n")).str = [activityLine ++ "\n"] := by
          decide
        rw [h] at hl
        rw [List.mem_singleton.1 hl]
        decide⟩)⟩⟩

/-- C3 as stated fails: an output whose only line is not JSON holds no inspect record, and
the result is the decoding error, not `ErrNotFound`. -/
theorem yarnFetchVersions_decode_error_not_notFound :
    sampleLib.Unmarshal "not json\n" =
      .error (.other "invalid character 'o' in literal null (expecting 'u')") ∧
    (yarnFetchVersions sampleLib (registryEnv "not json\n") ⟨false⟩ "jquery" []).1 =
      ⟨[], "", "", some (.other "invalid character 'o' in literal null (expecting 'u')")⟩ ∧
    (yarnFetchVersions sampleLib (registryEnv "not json\n") ⟨false⟩ "jquery" []).1.retErr ≠
      some .ErrNotFound := by
  decide

/-! ## `generateLibGo` -/

/-- When the content has been read, `generateLibGo` makes one write, of `libGoSource`. -/
theorem generateLibGo_writes (lib : Lib) (env : Env) (goFilePath inFile ver : String)
    (opts : YarnBuildOptions) (hread : (env 0 (.ReadAll inFile)).err = none) :
    (generateLibGo lib env goFilePath inFile ver opts []).2 =
      [⟨.ReadAll inFile, env 0 (.ReadAll inFile), false⟩,
       ⟨.WriteFile goFilePath (libGoSource lib (env 0 (.ReadAll inFile)).str ver opts),
         env 1 (.WriteFile goFilePath (libGoSource lib (env 0 (.ReadAll inFile)).str ver opts)),
         false⟩] := by
  simp only [generateLibGo, checked, finish, hread, List.nil_append, List.length_nil,
    List.length_singleton, List.singleton_append]
  split <;> simp [runDeferred]

/-- C5: when the file content has been read, `generateLibGo` writes, to `goFilePath`, a unit
with the record fields `Type`, `Name`, `Version` and `FileName` set to the request's type,
its Go name, the version and the base name of its source file path, each as a quoted string,
and `Deps` set to the empty string list; a request that differs only in `JSDeps` and
`CSSDeps` gives the same run. -/
theorem generateLibGo_metadata (lib : Lib) (env : Env) (goFilePath inFile ver : String)
    (opts : YarnBuildOptions) (js css : List String)
    (hread : (env 0 (.ReadAll inFile)).err = none) :
    (∃ before after data,
      (generateLibGo lib env goFilePath inFile ver opts []).2 =
        [⟨.ReadAll inFile, env 0 (.ReadAll inFile), false⟩,
         ⟨.WriteFile goFilePath data, env 1 (.WriteFile goFilePath data), false⟩] ∧
      data = before ++
        ("\t\tType: " ++ lib.Quote opts.Type_ ++ ",\n" ++
         "\t\tName: " ++ lib.Quote opts.GoName ++ "\n" ++
         "\t\tVersion: " ++ lib.Quote ver ++ ",\n" ++
         "\t\tFileName: " ++ lib.Quote (Base opts.SrcFilePath) ++ ",\n" ++
         "\t\tDeps: " ++ "[]string\x7b\x7d" ++ ",\n") ++ after) ∧
    generateLibGo lib env goFilePath inFile ver { opts with JSDeps := js, CSSDeps := css } [] =
      generateLibGo lib env goFilePath inFile ver opts [] := by
  refine ⟨⟨"\npackage " ++ opts.GoName ++ "_" ++ sanitize ver ++ "\n" ++
      "\n" ++
      "import \"github.com/bradleypeabody/gocaveman/uiregistry\"\n" ++
      "// TODO: go imports\n" ++
      "\n" ++
      "func init() \x7b\n" ++
      "\n" ++
      "\tds := uiregistry.NewBytesDataSource([]byte(" ++
        lib.Quote (env 0 (.ReadAll inFile)).str ++ "))\n" ++
      "\n" ++
      "\te := uiregistry.Entry \x7b\n",
    "\t\tDataSource: ds,\n" ++
      "\t\x7d\n" ++
      "\n" ++
      "\terr := uiregistry.Global.Register(e)\n" ++
      "\tif err != nil \x7b\n" ++
      "\t\tpanic(err)\n" ++
      "\t\x7d\n" ++
      "\n" ++
      "\x7d\n",
    libGoSource lib (env 0 (.ReadAll inFile)).str ver opts,
    generateLibGo_writes lib env goFilePath inFile ver opts hread, ?_⟩, rfl⟩
  simp only [libGoSource, String.append_assoc]

/-- The jquery request with and without declared dependencies. -/
theorem generateLibGo_metadata_witness :
    ((quietEnv "") 0 (.ReadAll "/co/jquery.js")).err = none ∧
    (generateLibGo sampleLib (quietEnv "") "/co/lib.go" "/co/jquery.js" "3.1.0"
        { jqueryOpts "3.1.0" with JSDeps := ["bootstrap"], CSSDeps := ["bootstrap"] } [] =
      generateLibGo sampleLib (quietEnv "") "/co/lib.go" "/co/jquery.js" "3.1.0"
        (jqueryOpts "3.1.0") []) :=
  ⟨rfl, (generateLibGo_metadata sampleLib (quietEnv "") "/co/lib.go" "/co/jquery.js" "3.1.0"
    (jqueryOpts "3.1.0") ["bootstrap"] ["bootstrap"] rfl).2⟩

theorem sanitize_data (ver : String) :
    (sanitize ver).data = ver.data.map fun c => if isAlnum c then c else '_' := rfl

/-- C6: when the file content has been read, the unit `generateLibGo` writes starts with the
package clause whose identifier is the request's Go name, an underscore and the sanitized
version; the sanitized version has the length of the version, keeps every character of
`[A-Za-z0-9]` in place, has `_` in the place of every other character, and so consists of
characters of `[A-Za-z0-9_]`; `1.0.0-beta.1` becomes `1_0_0_beta_1`. -/
theorem generateLibGo_package_identifier (lib : Lib) (env : Env)
    (goFilePath inFile ver : String) (opts : YarnBuildOptions)
    (hread : (env 0 (.ReadAll inFile)).err = none) :
    (∃ after data,
      (generateLibGo lib env goFilePath inFile ver opts []).2 =
        [⟨.ReadAll inFile, env 0 (.ReadAll inFile), false⟩,
         ⟨.WriteFile goFilePath data, env 1 (.WriteFile goFilePath data), false⟩] ∧
      data = "\npackage " ++ (opts.GoName ++ "_" ++ sanitize ver) ++ "\n" ++ after) ∧
    (sanitize ver).length = ver.length ∧
    (∀ (i : Nat) (c : Char), ver.data[i]? = some c →
      (sanitize ver).data[i]? = some (if isAlnum c then c else '_')) ∧
    (∀ c ∈ (sanitize ver).data, isAlnum c = true ∨ c = '_') ∧
    sanitize "1.0.0-beta.1" = "1_0_0_beta_1" := by
  refine ⟨⟨"\n" ++
      "import \"github.com/bradleypeabody/gocaveman/uiregistry\"\n" ++
      "// TODO: go imports\n" ++
      "\n" ++
      "func init() \x7b\n" ++
      "\n" ++
      "\tds := uiregistry.NewBytesDataSource([]byte(" ++
        lib.Quote (env 0 (.ReadAll inFile)).str ++ "))\n" ++
      "\n" ++
      "\te := uiregistry.Entry \x7b\n" ++
      "\t\tType: " ++ lib.Quote opts.Type_ ++ ",\n" ++
      "\t\tName: " ++ lib.Quote opts.GoName ++ "\n" ++
      "\t\tVersion: " ++ lib.Quote ver ++ ",\n" ++
      "\t\tFileName: " ++ lib.Quote (Base opts.SrcFilePath) ++ ",\n" ++
      "\t\tDeps: " ++ "[]string\x7b\x7d" ++ ",\n" ++
      "\t\tDataSource: ds,\n" ++
      "\t\x7d\n" ++
      "\n" ++
      "\terr := uiregistry.Global.Register(e)\n" ++
      "\tif err != nil \x7b\n" ++
      "\t\tpanic(err)\n" ++
      "\t\x7d\n" ++
      "\n" ++
      "\x7d\n",
    libGoSource lib (env 0 (.ReadAll inFile)).str ver opts,
    generateLibGo_writes lib env goFilePath inFile ver opts hread, ?_⟩, ?_, ?_, ?_, by decide⟩
  · simp only [libGoSource, String.append_assoc]
  · show (sanitize ver).data.length = ver.data.length
    rw [sanitize_data, List.length_map]
  · intro i c hc
    simp [sanitize_data, hc]
  · intro c hc
    rw [sanitize_data, List.mem_map] at hc
    obtain ⟨a, -, rfl⟩ := hc
    by_cases h : isAlnum a = true
    · rw [if_pos h]; exact Or.inl h
    · rw [if_neg h]; exact Or.inr rfl

/-- The version `1.0.0-beta.1`. -/
theorem generateLibGo_package_identifier_witness :
    ((quietEnv "") 0 (.ReadAll "/co/jquery.js")).err = none ∧
    (sanitize "1.0.0-beta.1").length = ("1.0.0-beta.1" : String).length :=
  ⟨rfl, (generateLibGo_package_identifier sampleLib (quietEnv "") "/co/lib.go" "/co/jquery.js"
    "1.0.0-beta.1" (jqueryOpts "1.0.0-beta.1") rfl).2.1⟩

/-- C10 fails on the code: in the unit written for the jquery request the element `Name` of
the `uiregistry.Entry` literal is followed by the end of the line without a comma, and this
is so for every content, version and request. -/
theorem generateLibGo_name_element_without_comma :
    (generateLibGo sampleLib (quietEnv "") "/co/lib.go" "/co/jquery.js" "3.1.0"
        (jqueryOpts "3.1.0") []).2.map Event.call =
      [.ReadAll "/co/jquery.js",
       .WriteFile "/co/lib.go"
        ("\npackage jquery_3_1_0\n" ++
         "\n" ++
         "import \"github.com/bradleypeabody/gocaveman/uiregistry\"\n" ++
         "// TODO: go imports\n" ++
         "\n" ++
         "func init() \x7b\n" ++
         "\n" ++
         "\tds := uiregistry.NewBytesDataSource([]byte(\"alert(1)\"))\n" ++
         "\n" ++
         "\te := uiregistry.Entry \x7b\n" ++
         "\t\tType: \"js\",\n" ++
         "\t\tName: \"jquery\"\n" ++
         "\t\tVersion: \"3.1.0\",\n" ++
         "\t\tFileName: \"jquery.js\",\n" ++
         "\t\tDeps: []string\x7b\x7d,\n" ++
         "\t\tDataSource: ds,\n" ++
         "\t\x7d\n" ++
         "\n" ++
         "\terr := uiregistry.Global.Register(e)\n" ++
         "\tif err != nil \x7b\n" ++
         "\t\tpanic(err)\n" ++
         "\t\x7d\n" ++
         "\n" ++
         "\x7d\n")] ∧
    ∀ (lib : Lib) (inFileB ver : String) (opts : YarnBuildOptions),
      ∃ before after, libGoSource lib inFileB ver opts =
        before ++ ("\t\tName: " ++ lib.Quote opts.GoName ++ "\n" ++ "\t\tVersion: ") ++ after := by
  refine ⟨by set_option maxRecDepth 100000 in decide,
    fun lib inFileB ver opts => ⟨"\npackage " ++ opts.GoName ++ "_" ++
      sanitize ver ++ "\n" ++
      "\n" ++
      "import \"github.com/bradleypeabody/gocaveman/uiregistry\"\n" ++
      "// TODO: go imports\n" ++
      "\n" ++
      "func init() \x7b\n" ++
      "\n" ++
      "\tds := uiregistry.NewBytesDataSource([]byte(" ++ lib.Quote inFileB ++ "))\n" ++
      "\n" ++
      "\te := uiregistry.Entry \x7b\n" ++
      "\t\tType: " ++ lib.Quote opts.Type_ ++ ",\n",
    lib.Quote ver ++ ",\n" ++
      "\t\tFileName: " ++ lib.Quote (Base opts.SrcFilePath) ++ ",\n" ++
      "\t\tDeps: " ++ "[]string\x7b\x7d" ++ ",\n" ++
      "\t\tDataSource: ds,\n" ++
      "\t\x7d\n" ++
      "\n" ++
      "\terr := uiregistry.Global.Register(e)\n" ++
      "\tif err != nil \x7b\n" ++
      "\t\tpanic(err)\n" ++
      "\t\x7d\n" ++
      "\n" ++
      "\x7d\n", ?_⟩⟩
  simp only [libGoSource, String.append_assoc]

/-! ## `CopyFile` -/

theorem follow_direct (fs : FS) (n : Nat) (name : String) (i : Nat)
    (he : fs.entry name = some i) (hn : ∀ t, fs.node i ≠ .symlink t) :
    fs.follow n name = .found name i := by
  cases hnode : fs.node i with
  | symlink t => exact absurd hnode (hn t)
  | regular d => cases n <;> simp [FS.follow, he, hnode]
  | dir => cases n <;> simp [FS.follow, he, hnode]
  | other => cases n <;> simp [FS.follow, he, hnode]

theorem follow_missing (fs : FS) (n : Nat) (name : String) (he : fs.entry name = none) :
    fs.follow n name = .missing name := by
  cases n <;> simp [FS.follow, he]

theorem read_of (fs : FS) (name : String) (i : Nat) (data : String)
    (he : fs.entry name = some i) (hn : fs.node i = .regular data) :
    fs.read name = some data := by
  have hf := follow_direct fs maxSymlinks name i he (fun t ht => by rw [hn] at ht; cases ht)
  simp [FS.read, hf, hn]

theorem link_cases (fs : FS) (fault : Option String) (oldname newname : String) :
    (∃ e, fs.Link fault oldname newname = (some e, fs)) ∨
    (∃ i, fs.entry oldname = some i ∧ fs.entry newname = none ∧
      (fs.Link fault oldname newname).1 = none ∧
      (fs.Link fault oldname newname).2.entry = setAt fs.entry newname (some i) ∧
      (fs.Link fault oldname newname).2.node = fs.node) := by
  unfold FS.Link
  cases fault with
  | some e => exact Or.inl ⟨_, rfl⟩
  | none =>
    simp only
    split
    · exact Or.inl ⟨_, rfl⟩
    · next i hi =>
      split
      · exact Or.inl ⟨_, rfl⟩
      · split
        · exact Or.inl ⟨_, rfl⟩
        · next hn =>
          split
          · exact Or.inl ⟨_, rfl⟩
          · exact Or.inr ⟨i, hi, by simpa using hn, rfl, rfl, rfl⟩

/-- A successful `copyFileContents` from a regular file to a path that does not exist or
names another regular file leaves the bytes of the source in both. -/
theorem copyFileContents_ok (ft : Faults) (src dst : String) (fs : FS) (i : Nat)
    (data : String) (hsrc : fs.entry src = some i) (hnode : fs.node i = .regular data)
    (hdst : fs.entry dst = none ∨
      ∃ j old, fs.entry dst = some j ∧ j ≠ i ∧ fs.node j = .regular old)
    (h : (copyFileContents ft src dst fs).1 = none) :
    (copyFileContents ft src dst fs).2.read dst = some data ∧
      (copyFileContents ft src dst fs).2.read src = some data := by
  have hfs : fs.follow maxSymlinks src = .found src i :=
    follow_direct fs _ src i hsrc (fun t ht => by rw [hnode] at ht; cases ht)
  unfold copyFileContents at h ⊢
  unfold FS.Open at h ⊢
  cases ho : ft.openSrc with
  | some e => simp [ho] at h
  | none =>
    simp only [ho, hfs] at h ⊢
    unfold FS.Create at h ⊢
    cases hc : ft.create with
    | some e => simp [hc] at h
    | none =>
      simp only [hc] at h ⊢
      rcases hdst with hd | ⟨j, old, hd, hji, hj⟩
      · have hfd : fs.follow maxSymlinks dst = .missing dst := follow_missing fs _ dst hd
        have hin : i ≠ fs.next := Nat.ne_of_lt (fs.fresh src i hsrc)
        have hsd : src ≠ dst := fun hsd => by rw [hsd, hd] at hsrc; cases hsrc
        simp only [hfd] at h ⊢
        cases hdir : fs.isDir (dirOf dst) with
        | false => simp [hdir] at h
        | true =>
          simp only [hdir, if_true] at h ⊢
          unfold FS.Copy at h ⊢
          simp only [FS.addFile, FS.addNode, setAt, hin, if_false, if_true, hnode] at h ⊢
          cases hcp : ft.copy with
          | some ne => simp [hcp] at h
          | none =>
            simp only [hcp] at h ⊢
            refine ⟨read_of _ _ fs.next _ (by simp [setAt]) (by simp [setAt]),
              read_of _ _ i _ (by simp [setAt, hsd, hsrc]) ?_⟩
            simp [setAt, hin, hnode]
      · have hfd : fs.follow maxSymlinks dst = .found dst j :=
          follow_direct fs _ dst j hd (fun t ht => by rw [hj] at ht; cases ht)
        have hij : i ≠ j := fun hij => hji hij.symm
        simp only [hfd, hj] at h ⊢
        unfold FS.Copy at h ⊢
        simp only [setAt, hij, if_false, if_true, hnode] at h ⊢
        cases hcp : ft.copy with
        | some ne => simp [hcp] at h
        | none =>
          simp only [hcp] at h ⊢
          refine ⟨read_of _ _ j _ hd (by simp [setAt]), read_of _ _ i _ hsrc ?_⟩
          simp [setAt, hij, hnode]

/-- Where neither path names a symbolic link, a `CopyFile` that returns no error leaves the
destination a regular file with the bytes the source had, and the source with those bytes, on
each of the three ways (same file, hard link, copy of the contents). -/
theorem CopyFile_copies_without_symlinks (ft : Faults) (src dst : String) (fs : FS)
    (hsl : fs.isSymlink src = false) (hdl : fs.isSymlink dst = false)
    (h : (CopyFile ft src dst fs).1 = none) :
    ∃ data, fs.read src = some data ∧
      (CopyFile ft src dst fs).2.read dst = some data ∧
      (CopyFile ft src dst fs).2.read src = some data := by
  have hs : ∀ i t, fs.entry src = some i → fs.node i ≠ .symlink t := by
    intro i t he hn
    simp [FS.isSymlink, he, hn] at hsl
  have hd : ∀ i t, fs.entry dst = some i → fs.node i ≠ .symlink t := by
    intro i t he hn
    simp [FS.isSymlink, he, hn] at hdl
  have key : ∀ i data, fs.entry src = some i → fs.node i = .regular data →
      (fs.entry dst = none ∨
        ∃ j old, fs.entry dst = some j ∧ j ≠ i ∧ fs.node j = .regular old) →
      ((match fs.Link ft.link src dst with
        | (none, fs1) => ((none : Option Error), fs1)
        | (some _, fs1) => copyFileContents ft src dst fs1).1 = none) →
      (match fs.Link ft.link src dst with
        | (none, fs1) => ((none : Option Error), fs1)
        | (some _, fs1) => copyFileContents ft src dst fs1).2.read dst = some data ∧
      (match fs.Link ft.link src dst with
        | (none, fs1) => ((none : Option Error), fs1)
        | (some _, fs1) => copyFileContents ft src dst fs1).2.read src = some data := by
    intro i data hsrc hnode hdst hres
    rcases link_cases fs ft.link src dst with ⟨e, hl⟩ | ⟨i1, h1, h2, h3, h4, h5⟩
    · rw [hl] at hres ⊢
      exact copyFileContents_ok ft src dst fs i data hsrc hnode hdst hres
    · have hi : i1 = i := by rw [hsrc] at h1; cases h1; rfl
      subst hi
      have hsd : src ≠ dst := fun hsd => by rw [hsd, h2] at hsrc; cases hsrc
      have hpair : fs.Link ft.link src dst = (none, (fs.Link ft.link src dst).2) :=
        Prod.ext h3 rfl
      rw [hpair]
      simp only
      exact ⟨read_of _ _ i1 _ (by rw [h4]; simp [setAt]) (by rw [h5]; exact hnode),
        read_of _ _ i1 _ (by rw [h4]; simp [setAt, hsd, hsrc]) (by rw [h5]; exact hnode)⟩
  unfold CopyFile at h ⊢
  simp only at h ⊢
  unfold FS.Stat at h ⊢
  cases hfs : ft.statSrc with
  | some e => simp [hfs] at h
  | none =>
    simp only [hfs] at h ⊢
    cases hes : fs.entry src with
    | none => simp [follow_missing fs _ src hes] at h
    | some i =>
      have hfsrc := follow_direct fs maxSymlinks src i hes (fun t => hs i t hes)
      simp only [hfsrc] at h ⊢
      cases hni : fs.node i with
      | symlink t => exact absurd hni (hs i t hes)
      | dir => simp [hni] at h
      | other => simp [hni] at h
      | regular data =>
        simp only [hni, Bool.not_true, Bool.false_eq_true, if_false] at h ⊢
        refine ⟨data, read_of _ _ _ _ hes hni, ?_⟩
        cases hfd : ft.statDst with
        | some e => simp [hfd, Error.IsNotExist] at h
        | none =>
          simp only [hfd] at h ⊢
          cases hed : fs.entry dst with
          | none =>
            simp only [follow_missing fs _ dst hed, Error.IsNotExist, Bool.not_true,
              Bool.false_eq_true, if_false] at h ⊢
            exact key i data hes hni (Or.inl hed) h
          | some j =>
            have hfdst := follow_direct fs maxSymlinks dst j hed (fun t => hd j t hed)
            simp only [hfdst] at h ⊢
            cases hnj : fs.node j with
            | symlink t => exact absurd hnj (hd j t hed)
            | dir => simp [hnj] at h
            | other => simp [hnj] at h
            | regular old =>
              simp only [hnj, Bool.not_true, Bool.false_eq_true, if_false, SameFile] at h ⊢
              by_cases hij : i = j
              · subst hij
                simp only [decide_True, if_true] at h ⊢
                exact ⟨read_of _ _ _ _ hed hni, read_of _ _ _ _ hes hni⟩
              · simp only [hij, decide_False, Bool.false_eq_true, if_false] at h ⊢
                exact key i data hes hni
                  (Or.inr ⟨j, old, hed, fun hji => hij hji.symm, hnj⟩) h

/-- A copy over an older file when no link can be made, a hard link, and a file copied onto
itself. -/
theorem CopyFile_copies_without_symlinks_witness :
    ((CopyFile noLink "/yarn/jquery.js" "/co/jquery.js" staleFS).1 = none ∧
      (CopyFile noLink "/yarn/jquery.js" "/co/jquery.js" staleFS).2.read "/co/jquery.js" =
        some "alert(1)" ∧
      ∃ data, staleFS.read "/yarn/jquery.js" = some data ∧
        (CopyFile noLink "/yarn/jquery.js" "/co/jquery.js" staleFS).2.read "/co/jquery.js" =
          some data ∧
        (CopyFile noLink "/yarn/jquery.js" "/co/jquery.js" staleFS).2.read "/yarn/jquery.js" =
          some data) ∧
    ((CopyFile noFaults "/yarn/jquery.js" "/co/jquery.js" fetchedFS).1 = none ∧
      ∃ data, fetchedFS.read "/yarn/jquery.js" = some data ∧
        (CopyFile noFaults "/yarn/jquery.js" "/co/jquery.js" fetchedFS).2.read
          "/co/jquery.js" = some data ∧
        (CopyFile noFaults "/yarn/jquery.js" "/co/jquery.js" fetchedFS).2.read
          "/yarn/jquery.js" = some data) ∧
    ((CopyFile noFaults "/co/jquery.js" "/co/jquery.js" staleFS).1 = none ∧
      ∃ data, staleFS.read "/co/jquery.js" = some data ∧
        (CopyFile noFaults "/co/jquery.js" "/co/jquery.js" staleFS).2.read "/co/jquery.js" =
          some data ∧
        (CopyFile noFaults "/co/jquery.js" "/co/jquery.js" staleFS).2.read "/co/jquery.js" =
          some data) :=
  ⟨⟨by decide, by decide,
    CopyFile_copies_without_symlinks noLink "/yarn/jquery.js" "/co/jquery.js" staleFS
      (by decide) (by decide) (by decide)⟩,
   ⟨by decide,
    CopyFile_copies_without_symlinks noFaults "/yarn/jquery.js" "/co/jquery.js" fetchedFS
      (by decide) (by decide) (by decide)⟩,
   ⟨by decide,
    CopyFile_copies_without_symlinks noFaults "/co/jquery.js" "/co/jquery.js" staleFS
      (by decide) (by decide) (by decide)⟩⟩

/-- C7 fails on the code: with the source a symbolic link to a regular file next to it and no
destination, `os.Stat` finds a regular file, `os.Link` links the symbolic link itself, and
`CopyFile` returns no error; the destination then is a symbolic link that leads to a name in
its own directory: to nothing, or to another file with other bytes. -/
theorem CopyFile_links_symlink_itself :
    (symlinkFS.read "/yarn/jquery.js" = some "alert(1)" ∧
      (CopyFile noFaults "/yarn/jquery.js" "/co/jquery.js" symlinkFS).1 = none ∧
      (CopyFile noFaults "/yarn/jquery.js" "/co/jquery.js" symlinkFS).2.follow maxSymlinks
        "/co/jquery.js" = .missing "/co/jquery.min.js" ∧
      (CopyFile noFaults "/yarn/jquery.js" "/co/jquery.js" symlinkFS).2.read "/co/jquery.js" =
        none) ∧
    (symlinkStaleFS.read "/yarn/jquery.js" = some "alert(1)" ∧
      (CopyFile noFaults "/yarn/jquery.js" "/co/jquery.js" symlinkStaleFS).1 = none ∧
      (CopyFile noFaults "/yarn/jquery.js" "/co/jquery.js" symlinkStaleFS).2.read
        "/co/jquery.js" = some "something else") := by
  decide


/-! ## The fuel of the JSON parser -/

theorem dropWhile_length_le (p : Char → Bool) (l : List Char) :
    (l.dropWhile p).length ≤ l.length := by
  induction l with
  | nil => simp
  | cons c l ih =>
    simp only [List.dropWhile]
    split
    · simp only [List.length_cons]; omega
    · simp

theorem skipWS_length_le (cs : List Char) : (skipWS cs).length ≤ cs.length :=
  dropWhile_length_le _ cs

theorem skipWS_cons (cs rest : List Char) (c : Char) (h : skipWS cs = c :: rest) :
    rest.length < cs.length := by
  have := skipWS_length_le cs
  rw [h] at this
  simp only [List.length_cons] at this
  omega

theorem parseString_succ (n : Nat) (cs acc : List Char) (hn : cs.length < n) :
    parseString (n + 1) cs acc = parseString n cs acc := by
  induction n generalizing cs acc with
  | zero => omega
  | succ n ih =>
    rw [parseString.eq_def, parseString.eq_def (n + 1)]
    split
    · rename_i h; cases h
    all_goals
      rename_i h
      cases h
    all_goals repeat' split
    all_goals first
      | rfl
      | (apply ih; simp only [List.length_cons] at *; omega)

theorem parseString_rest (n : Nat) (cs acc : List Char) (s : String) (r : List Char)
    (h : parseString n cs acc = some (s, r)) : r.length < cs.length := by
  induction n generalizing cs acc with
  | zero => simp [parseString] at h
  | succ n ih =>
    rw [parseString.eq_def] at h
    split at h
    · rename_i h1; cases h1
    all_goals
      rename_i h1
      cases h1
    all_goals repeat' split at h
    all_goals first
      | (cases h <;> (simp only [List.length_cons]; omega))
      | (refine Nat.lt_of_lt_of_le (ih _ _ h) ?_; simp only [List.length_cons]; omega)

theorem digits1_rest (cs r : List Char) (h : digits1 cs = some r) : r.length < cs.length := by
  cases cs with
  | nil => simp [digits1] at h
  | cons d cs =>
    simp only [digits1] at h
    split at h
    · simp only [Option.some.injEq] at h
      subst h
      have := dropWhile_length_le isDigit cs
      simp only [List.length_cons]
      omega
    · cases h

theorem numSign_le (cs : List Char) : (numSign cs).length ≤ cs.length := by
  unfold numSign
  split
  · simp
  · exact Nat.le_refl _

theorem numInt_rest (cs r : List Char) (h : numInt cs = some r) : r.length < cs.length := by
  unfold numInt at h
  split at h
  · cases h; simp
  · exact digits1_rest _ _ h

theorem numFrac_le (cs r : List Char) (h : numFrac cs = some r) : r.length ≤ cs.length := by
  unfold numFrac at h
  split at h
  · have := digits1_rest _ _ h
    simp only [List.length_cons]
    omega
  · cases h; exact Nat.le_refl _

theorem expSign_le (cs : List Char) : (expSign cs).length ≤ cs.length := by
  unfold expSign
  split
  · split
    · simp
    · exact Nat.le_refl _
  · exact Nat.le_refl _

theorem numExp_le (cs r : List Char) (h : numExp cs = some r) : r.length ≤ cs.length := by
  unfold numExp at h
  split at h
  · split at h
    · have := digits1_rest _ _ h
      have := expSign_le (by assumption)
      simp only [List.length_cons]
      omega
    · cases h; exact Nat.le_refl _
  · cases h; exact Nat.le_refl _

theorem parseNumber_rest (cs : List Char) (t : String) (r : List Char)
    (h : parseNumber cs = some (t, r)) : r.length < cs.length := by
  unfold parseNumber at h
  cases h1 : numInt (numSign cs) with
  | none => simp [h1] at h
  | some r1 =>
    cases h2 : numFrac r1 with
    | none => simp [h1, h2] at h
    | some r2 =>
      cases h3 : numExp r2 with
      | none => simp [h1, h2, h3] at h
      | some r3 =>
        simp only [h1, h2, h3, Option.some.injEq, Prod.mk.injEq] at h
        obtain ⟨-, rfl⟩ := h
        have := numInt_rest _ _ h1
        have := numSign_le cs
        have := numFrac_le _ _ h2
        have := numExp_le _ _ h3
        omega


theorem parse_rest (n : Nat) :
    (∀ cs v r, parseValue n cs = some (v, r) → r.length < cs.length) ∧
    (∀ cs acc v r, parseElements n cs acc = some (v, r) → r.length < cs.length) ∧
    (∀ cs acc v r, parseMembers n cs acc = some (v, r) → r.length < cs.length) := by
  induction n with
  | zero => simp [parseValue, parseElements, parseMembers]
  | succ n ih =>
    obtain ⟨ihv, ihe, ihm⟩ := ih
    refine ⟨?_, ?_, ?_⟩
    · intro cs v r h
      have hle := skipWS_length_le cs
      rw [parseValue] at h
      split at h
      · cases h
      · rename_i rest hsk
        rw [hsk] at hle
        cases hps : parseString (n + 1) rest [] with
        | none => simp [hps] at h
        | some p =>
          obtain ⟨s, r1⟩ := p
          simp only [hps, Option.some.injEq, Prod.mk.injEq] at h
          obtain ⟨-, rfl⟩ := h
          have := parseString_rest _ _ _ _ _ hps
          simp only [List.length_cons] at hle
          omega
      · rename_i rest hsk
        rw [hsk] at hle
        simp only [List.length_cons] at hle
        split at h
        · rename_i r1 hsk1
          simp only [Option.some.injEq, Prod.mk.injEq] at h
          obtain ⟨-, rfl⟩ := h
          have := skipWS_cons _ _ _ hsk1
          omega
        · have := ihe _ _ _ _ h
          omega
      · rename_i rest hsk
        rw [hsk] at hle
        simp only [List.length_cons] at hle
        split at h
        · rename_i r1 hsk1
          simp only [Option.some.injEq, Prod.mk.injEq] at h
          obtain ⟨-, rfl⟩ := h
          have := skipWS_cons _ _ _ hsk1
          omega
        · have := ihm _ _ _ _ h
          omega
      · rename_i r1 hsk
        rw [hsk] at hle
        simp only [Option.some.injEq, Prod.mk.injEq] at h
        obtain ⟨-, rfl⟩ := h
        simp only [List.length_cons] at hle
        omega
      · rename_i r1 hsk
        rw [hsk] at hle
        simp only [Option.some.injEq, Prod.mk.injEq] at h
        obtain ⟨-, rfl⟩ := h
        simp only [List.length_cons] at hle
        omega
      · rename_i r1 hsk
        rw [hsk] at hle
        simp only [Option.some.injEq, Prod.mk.injEq] at h
        obtain ⟨-, rfl⟩ := h
        simp only [List.length_cons] at hle
        omega
      · rename_i c rest _ _ _ _ _ _ hsk
        rw [hsk] at hle
        cases hpn : parseNumber (c :: rest) with
        | none => simp [hpn] at h
        | some p =>
          obtain ⟨t, r1⟩ := p
          simp only [hpn, Option.some.injEq, Prod.mk.injEq] at h
          obtain ⟨-, rfl⟩ := h
          have := parseNumber_rest _ _ _ hpn
          omega
    · intro cs acc v r h
      rw [parseElements] at h
      cases hv : parseValue n cs with
      | none => simp [hv] at h
      | some p =>
        obtain ⟨v1, r1⟩ := p
        simp only [hv] at h
        have h1 := ihv _ _ _ hv
        split at h
        · rename_i r2 hsk
          have := ihe _ _ _ _ h
          have := skipWS_cons _ _ _ hsk
          omega
        · rename_i r2 hsk
          simp only [Option.some.injEq, Prod.mk.injEq] at h
          obtain ⟨-, rfl⟩ := h
          have := skipWS_cons _ _ _ hsk
          omega
        · cases h
    · intro cs acc v r h
      rw [parseMembers] at h
      split at h
      · rename_i rest hsk
        have h0 := skipWS_cons _ _ _ hsk
        cases hps : parseString (n + 1) rest [] with
        | none => simp [hps] at h
        | some p =>
          obtain ⟨k, r1⟩ := p
          simp only [hps] at h
          have h1 := parseString_rest _ _ _ _ _ hps
          split at h
          · rename_i r2 hsk2
            have h2 := skipWS_cons _ _ _ hsk2
            cases hv : parseValue n r2 with
            | none => simp [hv] at h
            | some q =>
              obtain ⟨v1, r3⟩ := q
              simp only [hv] at h
              have h3 := ihv _ _ _ hv
              split at h
              · rename_i r4 hsk4
                have := ihm _ _ _ _ h
                have := skipWS_cons _ _ _ hsk4
                omega
              · rename_i r4 hsk4
                simp only [Option.some.injEq, Prod.mk.injEq] at h
                obtain ⟨-, rfl⟩ := h
                have := skipWS_cons _ _ _ hsk4
                omega
              · cases h
          · cases h
      · cases h


theorem parse_succ (n : Nat) :
    (∀ cs, 2 * cs.length ≤ n → parseValue (n + 1) cs = parseValue n cs) ∧
    (∀ cs acc, 2 * cs.length + 1 ≤ n → parseElements (n + 1) cs acc = parseElements n cs acc) ∧
    (∀ cs acc, 2 * cs.length + 1 ≤ n → parseMembers (n + 1) cs acc = parseMembers n cs acc) := by
  induction n with
  | zero =>
    refine ⟨?_, ?_, ?_⟩
    · intro cs h
      have : cs = [] := List.eq_nil_of_length_eq_zero (by omega)
      subst this
      rfl
    · intro cs acc h; omega
    · intro cs acc h; omega
  | succ n ih =>
    obtain ⟨ihv, ihe, ihm⟩ := ih
    refine ⟨?_, ?_, ?_⟩
    · intro cs h
      have hle := skipWS_length_le cs
      rw [parseValue, parseValue]
      cases hsk : skipWS cs with
      | nil => rfl
      | cons c rest =>
        rw [hsk] at hle
        simp only [List.length_cons] at hle
        by_cases h1 : c = '"'
        · subst h1
          simp only []
          rw [parseString_succ (n + 1) rest [] (by omega)]
        · by_cases h2 : c = '['
          · subst h2
            simp only []
            have hr := skipWS_length_le rest
            split
            · rfl
            · rw [ihe rest [] (by omega)]
          · by_cases h3 : c = '\x7b'
            · subst h3
              simp only []
              split
              · rfl
              · rw [ihm rest [] (by omega)]
            · split <;> first | rfl | simp_all
    · intro cs acc h
      rw [parseElements, parseElements, ihv cs (by omega)]
      cases hv : parseValue n cs with
      | none => rfl
      | some p =>
        obtain ⟨v1, r1⟩ := p
        simp only []
        have h1 := (parse_rest n).1 _ _ _ hv
        split
        · rename_i r2 hsk
          have := skipWS_cons _ _ _ hsk
          rw [ihe r2 _ (by omega)]
        · rfl
        · rfl
    · intro cs acc h
      rw [parseMembers, parseMembers]
      split
      · rename_i rest hsk
        have h0 := skipWS_cons _ _ _ hsk
        rw [parseString_succ (n + 1) rest [] (by omega)]
        cases hps : parseString (n + 1) rest [] with
        | none => rfl
        | some p =>
          obtain ⟨k, r1⟩ := p
          simp only []
          have h1 := parseString_rest _ _ _ _ _ hps
          split
          · rename_i r2 hsk2
            have h2 := skipWS_cons _ _ _ hsk2
            rw [ihv r2 (by omega)]
            cases hv : parseValue n r2 with
            | none => rfl
            | some q =>
              obtain ⟨v1, r3⟩ := q
              simp only []
              have h3 := (parse_rest n).1 _ _ _ hv
              split
              · rename_i r4 hsk4
                have := skipWS_cons _ _ _ hsk4
                rw [ihm r4 _ (by omega)]
              · rfl
              · rfl
          · rfl
      · rfl

theorem parseValue_fuel (n m : Nat) (cs : List Char) (hn : 2 * cs.length ≤ n) (hm : n ≤ m) :
    parseValue m cs = parseValue n cs := by
  induction m with
  | zero => have : n = 0 := by omega
            subst this; rfl
  | succ m ih =>
    by_cases h : n = m + 1
    · subst h; rfl
    · rw [(parse_succ m).1 cs (by omega)]; exact ih (by omega)

/-- The fuel that `parseJSON` gives is enough: more fuel gives the same result. -/
theorem parseJSON_fuel (data : String) (m : Nat) (hm : 2 * data.length + 2 ≤ m) :
    parseValue m data.data = parseValue (2 * data.length + 2) data.data :=
  parseValue_fuel _ _ _ (by show 2 * data.data.length ≤ 2 * data.data.length + 2; omega) hm

end Libbuilder
